import Mathlib

/-!
Verification of the portfolio analysis engine (`financials/portfolio.py`,
`financials/portfolio_widgets.py`) of the Portfolio-Optimizer repository.

The Python code is shallowly embedded: numbers are modelled as `ℚ`
(Python's binary floats are idealized as exact rationals; the model of the
builtin `float(str)` parser covers plain decimal literals, not the
`nan`/`inf` tokens or exponent notation), nullable values as `Option ℚ`,
Python dicts in insertion order as association lists, and code that can
raise as `Except PyErr`.
-/

namespace PortfolioOptimizer

/-- Exceptions relevant to the embedded code paths. -/
inductive PyErr where
  /-- `TypeError`, e.g. ordering `None` against a number. -/
  | typeError : PyErr
  /-- `pandas.errors.EmptyDataError` (no columns to parse). -/
  | emptyData : PyErr
  /-- `pandas.errors.ParserError` (row with more fields than the header). -/
  | parserError : PyErr
deriving DecidableEq, Repr

/-- Python `round(q)`: nearest integer, ties to even. -/
def pyRound (q : ℚ) : ℤ :=
  let f : ℤ := ⌊q⌋
  let r : ℚ := q - f
  if r < 1 / 2 then f
  else if 1 / 2 < r then f + 1
  else if f % 2 = 0 then f else f + 1

/-- Python `round(q, d)` on our exact-rational idealization of floats. -/
def pyRoundTo (d : ℕ) (q : ℚ) : ℚ := (pyRound (q * 10 ^ d) : ℚ) / 10 ^ d

/-- Python truthiness of an optional number (`None` and `0` are falsy). -/
def qTruthy (o : Option ℚ) : Bool := decide (o.getD 0 ≠ 0)

/-- Python `x or 0` for a nullable number `x`. -/
def orZero (o : Option ℚ) : ℚ := o.getD 0

/-- Python `x or y` for nullable numbers (`x` wins when truthy). -/
def orOpt (x y : Option ℚ) : Option ℚ := if qTruthy x then x else y

/-- A Python float value: finite, NaN, or an infinity. -/
inductive PyFloat where
  | finite (val : ℚ) : PyFloat
  | nan : PyFloat
  | inf (neg : Bool) : PyFloat
deriving DecidableEq, Repr

mutual
/-- A JSON-like Python tree (scalars, lists, dicts), as fed to
`_sanitize_for_json`. -/
inductive JVal where
  | null : JVal
  | bool (b : Bool) : JVal
  | int (n : ℤ) : JVal
  | float (f : PyFloat) : JVal
  | str (s : String) : JVal
  | arr (xs : JArr) : JVal
  | obj (kvs : JObj) : JVal
/-- A Python list of JSON-like values. -/
inductive JArr where
  | nil : JArr
  | cons (hd : JVal) (tl : JArr) : JArr
/-- A Python dict of JSON-like values, in insertion order. -/
inductive JObj where
  | nil : JObj
  | cons (key : String) (val : JVal) (tl : JObj) : JObj
end

mutual
/-- `_sanitize_for_json`: recursively replace NaN/Inf floats with None. -/
def sanitize_for_json : JVal → JVal
  | .float (.finite q) => .float (.finite q)
  | .float .nan => .null
  | .float (.inf _) => .null
  | .arr xs => .arr (sanitizeArr xs)
  | .obj kvs => .obj (sanitizeObj kvs)
  | .null => .null
  | .bool b => .bool b
  | .int n => .int n
  | .str s => .str s
/-- `_sanitize_for_json` mapped over a list (`[_sanitize_for_json(v) for v in obj]`). -/
def sanitizeArr : JArr → JArr
  | .nil => .nil
  | .cons x xs => .cons (sanitize_for_json x) (sanitizeArr xs)
/-- `_sanitize_for_json` mapped over dict values
(`{k: _sanitize_for_json(v) for k, v in obj.items()}`). -/
def sanitizeObj : JObj → JObj
  | .nil => .nil
  | .cons k v kvs => .cons k (sanitize_for_json v) (sanitizeObj kvs)
end

mutual
/-- A tree is JSON-safe when it holds no non-finite float at any depth. -/
def jsonSafe : JVal → Bool
  | .float (.finite _) => true
  | .float .nan => false
  | .float (.inf _) => false
  | .arr xs => jsonSafeArr xs
  | .obj kvs => jsonSafeObj kvs
  | .null => true
  | .bool _ => true
  | .int _ => true
  | .str _ => true
/-- `jsonSafe` over every element of a list. -/
def jsonSafeArr : JArr → Bool
  | .nil => true
  | .cons x xs => jsonSafe x && jsonSafeArr xs
/-- `jsonSafe` over every value of a dict. -/
def jsonSafeObj : JObj → Bool
  | .nil => true
  | .cons _ v kvs => jsonSafe v && jsonSafeObj kvs
end

mutual
theorem jsonSafe_sanitize : ∀ v : JVal, jsonSafe (sanitize_for_json v) = true
  | .float (.finite _) => rfl
  | .float .nan => rfl
  | .float (.inf _) => rfl
  | .arr xs => jsonSafeArr_sanitize xs
  | .obj kvs => jsonSafeObj_sanitize kvs
  | .null => rfl
  | .bool _ => rfl
  | .int _ => rfl
  | .str _ => rfl
theorem jsonSafeArr_sanitize : ∀ xs : JArr, jsonSafeArr (sanitizeArr xs) = true
  | .nil => rfl
  | .cons x xs => by
    simp only [sanitizeArr, jsonSafeArr, jsonSafe_sanitize x, jsonSafeArr_sanitize xs,
      Bool.and_self]
theorem jsonSafeObj_sanitize : ∀ kvs : JObj, jsonSafeObj (sanitizeObj kvs) = true
  | .nil => rfl
  | .cons k v kvs => by
    simp only [sanitizeObj, jsonSafeObj, jsonSafe_sanitize v, jsonSafeObj_sanitize kvs,
      Bool.and_self]
end

mutual
theorem sanitize_of_safe : ∀ v : JVal, jsonSafe v = true → sanitize_for_json v = v
  | .float (.finite _), _ => rfl
  | .float .nan, h => by simp [jsonSafe] at h
  | .float (.inf _), h => by simp [jsonSafe] at h
  | .arr xs, h => by
    simp only [sanitize_for_json, sanitizeArr_of_safe xs (by simpa [jsonSafe] using h)]
  | .obj kvs, h => by
    simp only [sanitize_for_json, sanitizeObj_of_safe kvs (by simpa [jsonSafe] using h)]
  | .null, _ => rfl
  | .bool _, _ => rfl
  | .int _, _ => rfl
  | .str _, _ => rfl
theorem sanitizeArr_of_safe : ∀ xs : JArr, jsonSafeArr xs = true → sanitizeArr xs = xs
  | .nil, _ => rfl
  | .cons x xs, h => by
    have hx : jsonSafe x = true := by
      have := h; simp only [jsonSafeArr, Bool.and_eq_true] at this; exact this.1
    have hxs : jsonSafeArr xs = true := by
      have := h; simp only [jsonSafeArr, Bool.and_eq_true] at this; exact this.2
    simp only [sanitizeArr, sanitize_of_safe x hx, sanitizeArr_of_safe xs hxs]
theorem sanitizeObj_of_safe : ∀ kvs : JObj, jsonSafeObj kvs = true → sanitizeObj kvs = kvs
  | .nil, _ => rfl
  | .cons k v kvs, h => by
    have hv : jsonSafe v = true := by
      have := h; simp only [jsonSafeObj, Bool.and_eq_true] at this; exact this.1
    have hkvs : jsonSafeObj kvs = true := by
      have := h; simp only [jsonSafeObj, Bool.and_eq_true] at this; exact this.2
    simp only [sanitizeObj, sanitize_of_safe v hv, sanitizeObj_of_safe kvs hkvs]
end

/-! ### CSV normalizer (`parse_portfolio_csv` and its helpers)

The input file is modelled after decoding as its list of lines
(`content.splitlines()`); byte-level decoding is outside the model.
`pandas.read_csv` (an external library call) is modelled on comma-separated
lines without quoting: it raises `EmptyDataError` on empty input,
`ParserError` when a data row has more fields than the header, pads short
rows with NaN, and maps the usual NA sentinels to NaN (`Option.none`).
-/

/-- ASCII whitespace for Python `str.strip()`. -/
def isSpaceChar (c : Char) : Bool :=
  c == ' ' || c == '\t' || c == '\n' || c == '\r' || c == '\x0b' || c == '\x0c'

/-- Python `str.strip()` (structurally recursive, unlike `String.trim`). -/
def pyStrip (s : String) : String :=
  ⟨((s.data.dropWhile isSpaceChar).reverse.dropWhile isSpaceChar).reverse⟩

/-- Python `s.upper()` (ASCII). -/
def pyUpper (s : String) : String := ⟨s.data.map Char.toUpper⟩

/-- Python `s.lower()` (ASCII). -/
def pyLower (s : String) : String := ⟨s.data.map Char.toLower⟩

/-- Python `s.replace(c, "")` for a one-character pattern. -/
def removeAll (c : Char) (s : String) : String := ⟨s.data.filter (fun x => x != c)⟩

/-- Python `s.replace(c, d)` for one-character pattern and replacement. -/
def replaceChar (c d : Char) (s : String) : String :=
  ⟨s.data.map (fun x => if x == c then d else x)⟩

/-- Python `s.rstrip(",")`. -/
def rstripCommas (s : String) : String := ⟨(s.data.reverse.dropWhile (· == ',')).reverse⟩

/-- Python `s.startswith(p)`. -/
def startsWithStr (p s : String) : Bool := p.data.isPrefixOf s.data

/-- Python `s.endswith(p)`. -/
def endsWithStr (p s : String) : Bool := p.data.reverse.isPrefixOf s.data.reverse

/-- Python `s[1:-1]`. -/
def dropEnds (s : String) : String := ⟨(s.data.drop 1).dropLast⟩

/-- Split a character list on a separator character. -/
def splitChar (c : Char) : List Char → List (List Char)
  | [] => [[]]
  | x :: xs =>
    match splitChar c xs with
    | [] => [[]]
    | g :: gs => if x == c then [] :: g :: gs else (x :: g) :: gs

/-- A canonical holding record as produced by the normalizer. -/
structure Holding where
  symbol : String
  name : String
  quantity : Option ℚ
  lastPrice : Option ℚ
  currentValue : Option ℚ
  costBasis : Option ℚ
  costBasisPerShare : Option ℚ
  totalGainDollar : Option ℚ
  totalGainPct : Option ℚ
  pctOfAccount : Option ℚ
deriving DecidableEq, Repr

/-- Digits of a numeral folded to a natural number. -/
def natOfDigits (cs : List Char) : ℕ := cs.foldl (fun n c => 10 * n + (c.toNat - 48)) 0

/-- Python `float(s)` on plain decimal literals `[-] digits [. digits]`
(with at least one digit); other strings fail to parse. -/
def parseDecimal (s : String) : Option ℚ :=
  let cs := s.data
  let neg := cs.head? = some '-'
  let cs := if neg then cs.tail else cs
  let intPart := cs.takeWhile Char.isDigit
  let rest := cs.dropWhile Char.isDigit
  let mag : Option ℚ :=
    match rest with
    | [] => if intPart.isEmpty then none else some (natOfDigits intPart : ℚ)
    | '.' :: fracPart =>
      if fracPart.all Char.isDigit && !(intPart.isEmpty && fracPart.isEmpty) then
        some ((natOfDigits intPart : ℚ) + (natOfDigits fracPart : ℚ) / 10 ^ fracPart.length)
      else none
    | _ => none
  mag.map (fun q => if neg then -q else q)

/-- `_clean_money`: strip `$`, `+`, `%`, commas, parens (negative) and
convert to a float; `None`/NaN and sentinel placeholders map to `none`. -/
def clean_money (cell : Option String) : Option ℚ :=
  match cell with
  | none => none
  | some raw =>
    let s := pyStrip raw
    if s ∈ ["", "--", "n/a", "N/A", "—", "-"] then none
    else
      let negative := startsWithStr "(" s && endsWithStr ")" s
      let s := if negative then dropEnds s else s
      let s := removeAll '+' (removeAll ',' (removeAll '%' (removeAll '$' s)))
      match parseDecimal s with
      | some q => some (if negative then -q else q)
      | none => none

/-- Symbols to skip (`_SKIP_SYMBOLS`). -/
def skipSymbols : List String :=
  ["FCASH", "PENDING ACTIVITY", "CASH", "CASH & CASH INVESTMENTS",
   "SPAXX", "SWVXX", "VMFXX", "FDRXX", "ACCOUNT TOTAL", "TOTAL"]

/-- Substring test (`needle in hay`, and `_SKIP_PATTERN.search`). -/
def containsSub (needle hay : String) : Bool :=
  hay.data.tails.any (fun t => needle.data.isPrefixOf t)

/-- `_COLUMN_ALIASES`: lowercased brokerage column name to canonical name. -/
def columnAlias : String → Option String
  | "symbol" => some "Symbol"
  | "ticker" => some "Symbol"
  | "ticker symbol" => some "Symbol"
  | "description" => some "Description"
  | "name" => some "Description"
  | "security name" => some "Description"
  | "security description" => some "Description"
  | "investment name" => some "Description"
  | "security" => some "Description"
  | "holding" => some "Description"
  | "quantity" => some "Quantity"
  | "shares" => some "Quantity"
  | "qty" => some "Quantity"
  | "share count" => some "Quantity"
  | "last price" => some "Last Price"
  | "price" => some "Last Price"
  | "share price" => some "Last Price"
  | "close price" => some "Last Price"
  | "closing price" => some "Last Price"
  | "last" => some "Last Price"
  | "market price" => some "Last Price"
  | "current price" => some "Last Price"
  | "current value" => some "Current Value"
  | "market value" => some "Current Value"
  | "total value" => some "Current Value"
  | "value" => some "Current Value"
  | "mkt value" => some "Current Value"
  | "account value" => some "Current Value"
  | "equity" => some "Current Value"
  | "cost basis total" => some "Cost Basis Total"
  | "cost basis" => some "Cost Basis Total"
  | "total cost" => some "Cost Basis Total"
  | "total cost basis" => some "Cost Basis Total"
  | "cost" => some "Cost Basis Total"
  | "book value" => some "Cost Basis Total"
  | "purchase value" => some "Cost Basis Total"
  | "average cost basis" => some "Average Cost Basis"
  | "cost basis per share" => some "Average Cost Basis"
  | "avg cost" => some "Average Cost Basis"
  | "average cost" => some "Average Cost Basis"
  | "avg cost/share" => some "Average Cost Basis"
  | "avg price" => some "Average Cost Basis"
  | "unit cost" => some "Average Cost Basis"
  | "total gain/loss dollar" => some "Total Gain/Loss Dollar"
  | "gain/loss dollar" => some "Total Gain/Loss Dollar"
  | "gain/loss $" => some "Total Gain/Loss Dollar"
  | "gain loss $" => some "Total Gain/Loss Dollar"
  | "unrealized gain/loss" => some "Total Gain/Loss Dollar"
  | "unrealized p&l" => some "Total Gain/Loss Dollar"
  | "gain/loss" => some "Total Gain/Loss Dollar"
  | "p&l" => some "Total Gain/Loss Dollar"
  | "total gain/loss" => some "Total Gain/Loss Dollar"
  | "total gain/loss percent" => some "Total Gain/Loss Percent"
  | "gain/loss percent" => some "Total Gain/Loss Percent"
  | "gain/loss %" => some "Total Gain/Loss Percent"
  | "gain loss %" => some "Total Gain/Loss Percent"
  | "unrealized gain/loss %" => some "Total Gain/Loss Percent"
  | "% gain/loss" => some "Total Gain/Loss Percent"
  | "percent of account" => some "Percent Of Account"
  | "% of account" => some "Percent Of Account"
  | "% of portfolio" => some "Percent Of Account"
  | "weight" => some "Percent Of Account"
  | "portfolio %" => some "Percent Of Account"
  | "allocation" => some "Percent Of Account"
  | "allocation %" => some "Percent Of Account"
  | _ => none

/-- `_normalize_columns`: build the rename map, first alias match wins and an
already-used canonical target is not reassigned. -/
def buildRenameMap (headers : List String) : List (String × String) :=
  headers.foldl (fun m col =>
    match columnAlias (pyLower (pyStrip col)) with
    | some canonical =>
      if (m.map Prod.snd).contains canonical then m else m ++ [(col, canonical)]
    | none => m) []

/-- The disclaimer-stripping loop of `parse_portfolio_csv`: keep non-blank
lines (right-stripped of commas), stop after two consecutive blank lines
once at least one data line was seen. -/
def cleanLinesAux : List String → Bool → ℕ → List String
  | [], _, _ => []
  | line :: rest, seen, blanks =>
    if pyStrip line = "" then
      if seen then
        if blanks + 1 ≥ 2 then []
        else cleanLinesAux rest seen (blanks + 1)
      else cleanLinesAux rest seen blanks
    else rstripCommas line :: cleanLinesAux rest true 0

/-- See `cleanLinesAux`. -/
def cleanLines (lines : List String) : List String := cleanLinesAux lines false 0

/-- NA sentinels `pandas.read_csv` turns into NaN by default. -/
def naValues : List String := ["", "N/A", "NA", "n/a", "NaN", "nan", "null", "NULL", "None"]

/-- Split one CSV line into fields. -/
def splitRow (line : String) : List String := (splitChar ',' line.data).map String.mk

/-- A parsed data frame: header names and rows of nullable cells. -/
structure CsvFrame where
  headers : List String
  rows : List (List (Option String))
deriving DecidableEq, Repr

/-- Model of `pandas.read_csv` on the cleaned lines. -/
def read_csv (lines : List String) : Except PyErr CsvFrame :=
  match lines with
  | [] => .error .emptyData
  | header :: dataLines =>
    let hs := splitRow header
    if dataLines.any (fun l => hs.length < (splitRow l).length) then .error .parserError
    else .ok ⟨hs, dataLines.map (fun l =>
      (splitRow l).map (fun c => if c ∈ naValues then none else some c))⟩

/-- `row.get(name)`: the cell under a named column (`none` when the column
is absent or the cell is NaN). -/
def getCell (headers : List String) (row : List (Option String)) (name : String) :
    Option String :=
  match headers.indexOf? name with
  | some i => (row.get? i).getD none
  | none => none

/-- `str(row.get(name, default))`: NaN cells stringify as `"nan"`, an absent
column yields the default. -/
def strCell (headers : List String) (row : List (Option String)) (name default : String) :
    String :=
  match headers.indexOf? name with
  | none => default
  | some i =>
    match (row.get? i).getD none with
    | none => "nan"
    | some s => s

/-- The per-row body of `parse_portfolio_csv`: symbol cleaning, skip rules,
money cleaning, backfills, and the minimum-data requirement. -/
def holdingOfRow (headers : List String) (row : List (Option String)) : Option Holding :=
  let symbol := pyUpper (pyStrip (strCell headers row "Symbol" ""))
  let symbol := pyStrip (removeAll '+' (removeAll '*' symbol))
  if symbol = "" then none
  else if symbol ∈ skipSymbols then none
  else if containsSub "*" symbol then none
  else if startsWithStr "PENDING" symbol then none
  else if containsSub "TOTAL" symbol || containsSub "CASH & CASH" symbol then none
  else
    let name := pyStrip (strCell headers row "Description" "")
    let quantity := clean_money (getCell headers row "Quantity")
    let last_price := clean_money (getCell headers row "Last Price")
    let current_value := clean_money (getCell headers row "Current Value")
    let cost_basis := clean_money (getCell headers row "Cost Basis Total")
    let cost_basis_per_share := clean_money (getCell headers row "Average Cost Basis")
    let total_gain_dollar := clean_money (getCell headers row "Total Gain/Loss Dollar")
    let total_gain_pct := clean_money (getCell headers row "Total Gain/Loss Percent")
    let pct_of_account := clean_money (getCell headers row "Percent Of Account")
    let current_value :=
      match current_value, last_price, quantity with
      | none, some p, some q => some (pyRoundTo 2 (p * q))
      | cv, _, _ => cv
    let cost_basis :=
      match cost_basis, cost_basis_per_share, quantity with
      | none, some c, some q => some (pyRoundTo 2 (c * q))
      | cb, _, _ => cb
    if current_value = none ∧ quantity = none then none
    else some
      { symbol := symbol, name := name, quantity := quantity, lastPrice := last_price,
        currentValue := some (orZero current_value), costBasis := cost_basis,
        costBasisPerShare := cost_basis_per_share, totalGainDollar := total_gain_dollar,
        totalGainPct := total_gain_pct, pctOfAccount := pct_of_account }

/-- Merging a duplicate ticker onto its first occurrence: sum the additive
fields, keep the first occurrence's other fields. -/
def mergeTwo (m h : Holding) : Holding :=
  { m with
    quantity := some (orZero m.quantity + orZero h.quantity),
    currentValue := some (orZero m.currentValue + orZero h.currentValue),
    costBasis := some (orZero m.costBasis + orZero h.costBasis),
    totalGainDollar := some (orZero m.totalGainDollar + orZero h.totalGainDollar) }

/-- One step of the `merged` dict build (insertion order preserved). -/
def insertMerged (acc : List Holding) (h : Holding) : List Holding :=
  if acc.any (fun m => m.symbol == h.symbol) then
    acc.map (fun m => if m.symbol == h.symbol then mergeTwo m h else m)
  else acc ++ [h]

/-- Consolidate duplicate tickers (`merged` dict, then `list(values())`). -/
def consolidate (hs : List Holding) : List Holding := hs.foldl insertMerged []

/-- Total portfolio value `sum(h.get("currentValue") or 0 ...)`. -/
def totalValueOf (hs : List Holding) : ℚ := (hs.map (fun h => orZero h.currentValue)).sum

/-- Recalculate `pctOfAccount`, `totalGainPct`, `costBasisPerShare` after
consolidation. -/
def recompute (hs : List Holding) : List Holding :=
  let total_value := totalValueOf hs
  hs.map (fun h =>
    let val := orZero h.currentValue
    let cost := h.costBasis
    let qty := h.quantity
    { h with
      pctOfAccount := some (if 0 < total_value then pyRoundTo 2 (val / total_value * 100) else 0),
      totalGainPct :=
        if qTruthy cost then some (pyRoundTo 2 ((val - cost.getD 0) / cost.getD 0 * 100))
        else none,
      costBasisPerShare :=
        if qTruthy cost && qTruthy qty then some (pyRoundTo 2 (cost.getD 0 / qty.getD 0))
        else none })

/-- The renamed (canonicalized) header list of a parsed frame. -/
def renamedHeaders (frame : CsvFrame) : List String :=
  let headers := frame.headers.map pyStrip
  let rmap := buildRenameMap headers
  headers.map (fun c => (rmap.lookup c).getD c)

/-- `parse_portfolio_csv` on the decoded file's lines. -/
def parse_portfolio_csv (fileLines : List String) : Except PyErr (List Holding) :=
  match read_csv (cleanLines fileLines) with
  | .error e => .error e
  | .ok frame =>
    .ok (recompute (consolidate (frame.rows.filterMap (holdingOfRow (renamedHeaders frame)))))

/-! ### Stable sorting (model of Python `list.sort` / `sorted`) -/

/-- Insert into a sorted list, before the first element not below `a`. -/
def insertSorted (le : α → α → Bool) (a : α) : List α → List α
  | [] => [a]
  | b :: bs => if le a b then a :: b :: bs else b :: insertSorted le a bs

/-- Stable insertion sort; with `le x y := key x ≤ key y` this matches
Python's stable ascending `sort(key=...)`, and with the flipped comparison
it matches `reverse=True`. -/
def sortedBy (le : α → α → Bool) : List α → List α
  | [] => []
  | a :: as => insertSorted le a (sortedBy le as)

/-- Python `<` on strings: code-point lexicographic. -/
def charListLt : List Char → List Char → Bool
  | [], [] => false
  | [], _ :: _ => true
  | _ :: _, [] => false
  | a :: as, b :: bs => if a < b then true else if b < a then false else charListLt as bs

/-- Python `≤` on strings. -/
def strLeB (a b : String) : Bool := a == b || charListLt a.data b.data

/-! ### Manual entry builder (`build_holdings_from_manual`) -/

/-- A Python scalar as found in a manual-entry JSON payload. -/
inductive PyScalar where
  | null : PyScalar
  | num (q : ℚ) : PyScalar
  | str (s : String) : PyScalar
deriving DecidableEq, Repr

/-- One manual entry `{symbol, shares, costPerShare?}` (an absent
`costPerShare` is `null`). -/
structure ManualEntry where
  symbol : String
  shares : PyScalar
  costPerShare : PyScalar
deriving DecidableEq, Repr

/-- Python `float(x)` on a scalar: `None` raises (`none` here, caught by the
caller), strings parse as decimal literals. -/
def pyFloat : PyScalar → Option ℚ
  | .null => none
  | .num q => some q
  | .str s => parseDecimal (pyStrip s)

/-- `re.match(r"^[A-Z]{1,10}$", symbol)`. -/
def isValidManualSymbol (s : String) : Bool :=
  decide (1 ≤ s.data.length) && decide (s.data.length ≤ 10) &&
    s.data.all (fun c => decide ('A' ≤ c) && decide (c ≤ 'Z'))

/-- Merging a duplicate manual symbol: sum shares, weighted-average cost. -/
def mergeTwoManual (m h : Holding) : Holding :=
  let total_qty := orZero m.quantity + orZero h.quantity
  let total_cost := orZero m.costBasis + orZero h.costBasis
  { m with
    quantity := some total_qty,
    costBasis := if 0 < total_cost then some total_cost else none,
    costBasisPerShare :=
      if 0 < total_cost ∧ 0 < total_qty then some (pyRoundTo 2 (total_cost / total_qty))
      else none }

/-- One step of the manual-entry `merged` dict build. -/
def insertMergedManual (acc : List Holding) (h : Holding) : List Holding :=
  if acc.any (fun m => m.symbol == h.symbol) then
    acc.map (fun m => if m.symbol == h.symbol then mergeTwoManual m h else m)
  else acc ++ [h]

/-- The per-entry body of the `build_holdings_from_manual` loop: validate
the symbol, require positive parseable shares, sanitize the optional cost,
or drop the entry (`none`). -/
def manualEntryStep (entry : ManualEntry) : Option Holding :=
  let symbol := pyUpper (pyStrip entry.symbol)
  if symbol = "" || !isValidManualSymbol symbol then none
  else if symbol ∈ skipSymbols then none
  else
    match pyFloat entry.shares with
    | none => none
    | some shares =>
      if shares ≤ 0 then none
      else
        let cost_per_share : Option ℚ :=
          match entry.costPerShare with
          | .null => none
          | v =>
            match pyFloat v with
            | none => none
            | some c => if c < 0 then none else some c
        let cost_basis :=
          if qTruthy cost_per_share then some (pyRoundTo 2 (cost_per_share.getD 0 * shares))
          else none
        some
          { symbol := symbol, name := "", quantity := some shares, lastPrice := none,
            currentValue := some 0, costBasis := cost_basis,
            costBasisPerShare := cost_per_share, totalGainDollar := none,
            totalGainPct := none, pctOfAccount := some 0 }

/-- `build_holdings_from_manual`: validate, convert, consolidate. -/
def build_holdings_from_manual (entries : List ManualEntry) : List Holding :=
  (entries.filterMap manualEntryStep).foldl insertMergedManual []

/-! ### Enriched holdings (`_ENRICHMENT_FALLBACK`, `enrich_holdings`) -/

/-- A holding after enrichment: the parser fields plus the fields of an
enrichment record (`exDividendDate`, unused by the analytics, is modelled
as epoch seconds). -/
structure EnrichedHolding where
  symbol : String
  name : String
  quantity : Option ℚ
  lastPrice : Option ℚ
  currentValue : Option ℚ
  costBasis : Option ℚ
  costBasisPerShare : Option ℚ
  totalGainDollar : Option ℚ
  totalGainPct : Option ℚ
  pctOfAccount : Option ℚ
  sector : String
  sectorKey : String
  industry : String
  industryKey : String
  marketCap : Option ℚ
  currentPrice : Option ℚ
  targetMeanPrice : Option ℚ
  nAnalysts : Option ℚ
  recommendationKey : String
  sectorWeights : Option (List (String × ℚ))
  isFund : Bool
  dividendYield : Option ℚ
  fiveYearAvgDividendYield : Option ℚ
  exDividendDate : Option ℚ
  fiftyTwoWeekHigh : Option ℚ
  fiftyTwoWeekLow : Option ℚ
  beta : Option ℚ
  trailingPE : Option ℚ
deriving DecidableEq, Repr

/-- `h.update(_ENRICHMENT_FALLBACK)`: the documented all-null/"Unknown"
fallback enrichment applied to a parsed holding. -/
def applyFallbackEnrichment (h : Holding) : EnrichedHolding :=
  { symbol := h.symbol, name := h.name, quantity := h.quantity, lastPrice := h.lastPrice,
    currentValue := h.currentValue, costBasis := h.costBasis,
    costBasisPerShare := h.costBasisPerShare, totalGainDollar := h.totalGainDollar,
    totalGainPct := h.totalGainPct, pctOfAccount := h.pctOfAccount,
    sector := "Unknown", sectorKey := "", industry := "Unknown", industryKey := "",
    marketCap := none, currentPrice := none, targetMeanPrice := none, nAnalysts := none,
    recommendationKey := "N/A", sectorWeights := none, isFund := false,
    dividendYield := none, fiveYearAvgDividendYield := none, exDividendDate := none,
    fiftyTwoWeekHigh := none, fiftyTwoWeekLow := none, beta := none, trailingPE := none }

/-- `h.get("isFund") or h.get("sectorWeights")` as a boolean: fund flag or a
non-empty sector-weights dict. -/
def isFundEff (h : EnrichedHolding) : Bool :=
  h.isFund ||
    (match h.sectorWeights with
     | some ws => !ws.isEmpty
     | none => false)

/-! ### Analyst consensus overview (`compute_analyst_overview`) -/

/-- One `upside_data` entry. -/
structure UpsideEntry where
  symbol : String
  name : String
  recommendationKey : String
  nAnalysts : ℚ
  targetMeanPrice : Option ℚ
  currentPrice : Option ℚ
  upsidePct : Option ℚ
  currentValue : ℚ
  pctOfAccount : ℚ
deriving DecidableEq, Repr

/-- The analyst consensus overview result. -/
structure AnalystOverview where
  buys : ℕ
  holds : ℕ
  sells : ℕ
  totalCovered : ℕ
  totalHoldings : ℕ
  coverageRatio : ℚ
  weightedUpside : Option ℚ
  holdingsByUpside : List UpsideEntry
deriving DecidableEq, Repr

/-- The per-holding body of the `compute_analyst_overview` loop:
`none` when the holding is skipped (`n == 0 or rec in ("n/a", "")`),
otherwise the bucket (0 = buy, 1 = hold, 2 = sell, 3 = other) and the
`upside_data` entry. -/
def overviewStep (h : EnrichedHolding) : Option (ℕ × UpsideEntry) :=
  let rec0 := replaceChar ' ' '_' (pyLower h.recommendationKey)
  let n := orZero h.nAnalysts
  if n = 0 ∨ rec0 ∈ ["n/a", ""] then none
  else
    let bucket : ℕ :=
      if rec0 ∈ ["buy", "strong_buy"] then 0
      else if rec0 = "hold" then 1
      else if rec0 ∈ ["sell", "underperform", "strong_sell"] then 2
      else 3
    let target := h.targetMeanPrice
    let current := orOpt h.currentPrice h.lastPrice
    let upside_pct : Option ℚ :=
      if qTruthy target ∧ qTruthy current ∧ 0 < orZero current then
        some (pyRoundTo 1 ((orZero target - orZero current) / orZero current * 100))
      else none
    some (bucket,
      { symbol := h.symbol, name := h.name, recommendationKey := h.recommendationKey,
        nAnalysts := n, targetMeanPrice := target, currentPrice := current,
        upsidePct := upside_pct, currentValue := orZero h.currentValue,
        pctOfAccount := orZero h.pctOfAccount })

/-- `compute_analyst_overview`: aggregate recommendation buckets and the
value-weighted implied upside over covered holdings. -/
def compute_analyst_overview (holdings : List EnrichedHolding) : AnalystOverview :=
  let steps := holdings.filterMap overviewStep
  let upside_data := steps.map Prod.snd
  let buys := (steps.filter (fun s => s.1 = 0)).length
  let holds := (steps.filter (fun s => s.1 = 1)).length
  let sells := (steps.filter (fun s => s.1 = 2)).length
  let total_covered := steps.length
  let covered := upside_data.filter (fun d => d.upsidePct.isSome)
  let total_value := (covered.map (fun d => d.currentValue)).sum
  let weighted_upside : Option ℚ :=
    if 0 < total_value then
      some (pyRoundTo 1 ((covered.map (fun d => d.upsidePct.getD 0 * d.currentValue)).sum
        / total_value))
    else none
  { buys := buys, holds := holds, sells := sells, totalCovered := total_covered,
    totalHoldings := holdings.length,
    coverageRatio :=
      if holdings.isEmpty then 0
      else pyRoundTo 0 ((total_covered : ℚ) / (holdings.length : ℚ) * 100),
    weightedUpside := weighted_upside,
    holdingsByUpside :=
      sortedBy (fun a b => b.upsidePct.getD 0 ≤ a.upsidePct.getD 0) covered }

/-! ### Sector breakdown with fund look-through (`analyze_portfolio`) -/

/-- One sector bucket (`pct` is attached after sorting). -/
structure SectorEntry where
  sector : String
  value : ℚ
  count : ℕ
  pct : ℚ
deriving DecidableEq, Repr

/-- Add value/count to a sector bucket, creating it at the end on first
sight (Python dict insertion order). -/
def addSector (m : List SectorEntry) (sec : String) (dv : ℚ) (dc : ℕ) : List SectorEntry :=
  if m.any (fun e => e.sector == sec) then
    m.map (fun e =>
      if e.sector == sec then { e with value := e.value + dv, count := e.count + dc } else e)
  else m ++ [{ sector := sec, value := dv, count := dc, pct := 0 }]

/-- `max(weights, key=weights.get)`: the first key attaining the maximal
weight. -/
def argmaxFirst : List (String × ℚ) → String
  | [] => ""
  | p :: rest => (rest.foldl (fun best q => if best.2 < q.2 then q else best) p).1

/-- Non-fund arm of the sector loop. -/
def addSectorNonFund (m : List SectorEntry) (h : EnrichedHolding) (val : ℚ) :
    List SectorEntry :=
  let sec := if h.sector = "" then "Unknown" else h.sector
  let sec := if sec = "Fund/ETF" then "Unknown" else sec
  addSector m sec val 1

/-- The `sector_map` loop: funds with a non-empty `sectorWeights` dict are
distributed across sectors by `value × weight` and counted once in their
largest-weight sector; other holdings contribute value and count to their
single sector. -/
def sectorMapOf (holdings : List EnrichedHolding) : List SectorEntry :=
  holdings.foldl (fun m h =>
    let val := orZero h.currentValue
    match h.sectorWeights with
    | some ws =>
      if !ws.isEmpty then
        addSector (ws.foldl (fun m p => addSector m p.1 (val * p.2) 0) m) (argmaxFirst ws) 0 1
      else addSectorNonFund m h val
    | none => addSectorNonFund m h val) []

/-- `by_sector`: buckets sorted by value descending, with portfolio
percentages attached. -/
def bySectorOf (holdings : List EnrichedHolding) (total_value : ℚ) : List SectorEntry :=
  (sortedBy (fun a b => b.value ≤ a.value) (sectorMapOf holdings)).map (fun s =>
    { s with pct := if 0 < total_value then pyRoundTo 1 (s.value / total_value * 100) else 0 })

/-- One industry bucket. -/
structure IndustryEntry where
  industry : String
  industryKey : String
  sector : String
  value : ℚ
  count : ℕ
  pct : ℚ
deriving DecidableEq, Repr

/-- Add a holding to an industry bucket (created at the end on first sight,
keeping the first holding's key/sector). -/
def addIndustry (m : List IndustryEntry) (ind indKey sec : String) (dv : ℚ) :
    List IndustryEntry :=
  if m.any (fun e => e.industry == ind) then
    m.map (fun e =>
      if e.industry == ind then { e with value := e.value + dv, count := e.count + 1 } else e)
  else m ++ [{ industry := ind, industryKey := indKey, sector := sec, value := dv,
               count := 1, pct := 0 }]

/-- The `industry_map` loop: funds collapse into a single pseudo-industry. -/
def industryMapOf (holdings : List EnrichedHolding) : List IndustryEntry :=
  holdings.foldl (fun m h =>
    let val := orZero h.currentValue
    if isFundEff h then
      addIndustry m "Fund/ETF (look-through in sector view)" "" "Fund/ETF" val
    else
      addIndustry m (if h.industry = "" then "Unknown" else h.industry) h.industryKey
        (if h.sector = "" then "Unknown" else h.sector) val) []

/-- `by_industry`: buckets sorted by value descending with percentages. -/
def byIndustryOf (holdings : List EnrichedHolding) (total_value : ℚ) : List IndustryEntry :=
  (sortedBy (fun a b => b.value ≤ a.value) (industryMapOf holdings)).map (fun i =>
    { i with pct := if 0 < total_value then pyRoundTo 1 (i.value / total_value * 100) else 0 })

/-! ### Concentration risk, gaps, opportunities, tax-loss, health, dividends -/

/-- One concentration-risk entry. -/
structure ConcEntry where
  symbol : String
  name : String
  pct : ℚ
  currentValue : ℚ
  isFund : Bool
  threshold : ℚ
deriving DecidableEq, Repr

/-- The concentration loop body for one holding. -/
def concStep (total_value : ℚ) (h : EnrichedHolding) : Option ConcEntry :=
  let pct : Option ℚ :=
    match h.pctOfAccount with
    | some p => some p
    | none =>
      if 0 < total_value then some (orZero h.currentValue / total_value * 100) else none
  let is_fund := isFundEff h
  let threshold : ℚ := if is_fund then 30 else 15
  match pct with
  | some p =>
    if p ≠ 0 ∧ threshold < p then
      some { symbol := h.symbol, name := h.name, pct := pyRoundTo 1 p,
             currentValue := orZero h.currentValue, isFund := is_fund,
             threshold := threshold }
    else none
  | none => none

/-- The `concentration` list: holdings whose (truthy) percentage strictly
exceeds 30 for funds and 15 otherwise. -/
def concentrationOf (holdings : List EnrichedHolding) (total_value : ℚ) : List ConcEntry :=
  holdings.filterMap (concStep total_value)

/-- `ALLOWED_INDUSTRIES` from `financials/data.py`. -/
def allowedIndustries : List String :=
  ["semiconductors", "software-infrastructure", "software-application",
   "internet-content-information", "consumer-electronics",
   "drug-manufacturers-general", "biotechnology",
   "medical-devices", "healthcare-plans",
   "banks-diversified", "asset-management", "insurance-diversified",
   "oil-gas-integrated", "oil-gas-e-p", "oil-gas-equipment-services",
   "utilities-regulated-electric", "utilities-renewable",
   "aerospace-defense", "railroads", "farm-heavy-construction-machinery",
   "auto-manufacturers", "specialty-retail", "restaurants",
   "home-improvement-retail",
   "household-personal-products", "discount-stores",
   "telecom-services",
   "reit-specialty",
   "specialty-chemicals"]

/-- `INDUSTRY_LABELS.get(k, k)` from `financials/data.py`. -/
def industryLabel : String → String
  | "semiconductors" => "Semiconductors"
  | "software-infrastructure" => "Software - Infrastructure"
  | "software-application" => "Software - Application"
  | "internet-content-information" => "Internet Content & Information"
  | "consumer-electronics" => "Consumer Electronics"
  | "drug-manufacturers-general" => "Drug Manufacturers"
  | "biotechnology" => "Biotechnology"
  | "medical-devices" => "Medical Devices"
  | "healthcare-plans" => "Healthcare Plans"
  | "banks-diversified" => "Banks - Diversified"
  | "asset-management" => "Asset Management"
  | "insurance-diversified" => "Insurance - Diversified"
  | "oil-gas-integrated" => "Oil & Gas Integrated"
  | "oil-gas-e-p" => "Oil & Gas E&P"
  | "oil-gas-equipment-services" => "Oil & Gas Equipment & Services"
  | "utilities-regulated-electric" => "Utilities - Regulated Electric"
  | "utilities-renewable" => "Utilities - Renewable"
  | "aerospace-defense" => "Aerospace & Defense"
  | "railroads" => "Railroads"
  | "farm-heavy-construction-machinery" => "Farm & Heavy Construction Machinery"
  | "auto-manufacturers" => "Auto Manufacturers"
  | "specialty-retail" => "Specialty Retail"
  | "restaurants" => "Restaurants"
  | "home-improvement-retail" => "Home Improvement Retail"
  | "household-personal-products" => "Household & Personal Products"
  | "discount-stores" => "Discount Stores"
  | "telecom-services" => "Telecom Services"
  | "reit-specialty" => "REITs - Specialty"
  | "specialty-chemicals" => "Specialty Chemicals"
  | k => k

/-- Diversification gaps: allowed industries (in sorted order) without a
holding carrying that industry key. -/
def gapIndustriesOf (holdings : List EnrichedHolding) : List String :=
  let keys := holdings.filterMap (fun h =>
    if h.industryKey ≠ "" then some h.industryKey else none)
  (sortedBy strLeB allowedIndustries).filter (fun k => !keys.contains k)

/-- An industry pick as returned by the external `fetch_industry_picks`
gateway (only the fields the engine reads, plus the computed score). -/
structure Pick where
  symbol : String
  nAnalysts : ℚ
  upsidePct : ℚ
  lowCoverage : Bool
  recKey : String
  score : ℚ
deriving DecidableEq, Repr

/-- `_RATING_SCORES.get(key, 3)`. -/
def ratingScore : String → ℚ
  | "strong_buy" => 5
  | "buy" => 4
  | "hold" => 3
  | "sell" => 2
  | "underperform" => 2
  | "strong_sell" => 1
  | _ => 3

/-- One gap-opportunity entry. -/
structure Opportunity where
  industryKey : String
  industryLabel : String
  picks : List Pick
  allPicks : List Pick
deriving DecidableEq, Repr

/-- `_fetch_gap_opportunity` given the gateway's picks for the industry. -/
def fetchGapOpportunity (picksFor : String → List Pick) (indKey : String) :
    Option Opportunity :=
  let qualified := (picksFor indKey).filterMap (fun p =>
    if 5 ≤ p.nAnalysts ∧ 0 < p.upsidePct ∧ !p.lowCoverage then
      let norm_rating := (ratingScore (pyLower p.recKey) - 1) / 4
      let norm_upside := min p.upsidePct 100 / 100
      some { p with score := pyRoundTo 3 (0.6 * norm_rating + 0.4 * norm_upside) }
    else none)
  if qualified.isEmpty then none
  else
    let qualified := sortedBy (fun a b => b.score ≤ a.score) qualified
    some { industryKey := indKey, industryLabel := industryLabel indKey,
           picks := qualified.take 3, allPicks := qualified.take 6 }

/-- The `opportunities` block: first 12 gaps fetched; the fan-out completion
order is erased by the final sort on (distinct) industry labels. -/
def opportunitiesOf (picksFor : String → List Pick) (gaps : List String) :
    List Opportunity :=
  sortedBy (fun a b => strLeB a.industryLabel b.industryLabel)
    ((gaps.take 12).filterMap (fetchGapOpportunity picksFor))

/-- One tax-loss harvesting candidate. -/
structure TLCandidate where
  symbol : String
  name : String
  currentValue : ℚ
  costBasis : ℚ
  unrealizedLoss : ℚ
  lossPct : ℚ
  estTaxSavings : ℚ
  nearFiftyTwoWeekLow : Bool
deriving DecidableEq, Repr

/-- The tax-loss loop body for one holding. -/
def taxLossStep (h : EnrichedHolding) : Option TLCandidate :=
  match h.costBasis with
  | none => none
  | some cost =>
    let val := orZero h.currentValue
    if cost ≠ 0 ∧ 0 < cost ∧ val < cost then
      let loss := val - cost
      let loss_pct := loss / cost * 100
      if loss ≤ -100 ∧ loss_pct ≤ -5 then
        let low52 := h.fiftyTwoWeekLow
        let price := orOpt h.lastPrice h.currentPrice
        let near_low := qTruthy low52 && qTruthy price && decide (0 < orZero low52) &&
          decide ((orZero price - orZero low52) / orZero low52 ≤ 0.10)
        some { symbol := h.symbol, name := h.name, currentValue := val, costBasis := cost,
               unrealizedLoss := pyRoundTo 2 loss, lossPct := pyRoundTo 1 loss_pct,
               estTaxSavings := pyRoundTo 2 (|loss| * 0.24),
               nearFiftyTwoWeekLow := near_low }
      else none
    else none

/-- `tax_loss_candidates`: filtered then sorted ascending by unrealized
loss. -/
def taxLossCandidatesOf (holdings : List EnrichedHolding) : List TLCandidate :=
  sortedBy (fun a b => a.unrealizedLoss ≤ b.unrealizedLoss)
    (holdings.filterMap taxLossStep)

/-- The health-score result (`round` of each component). -/
structure HealthScore where
  total : ℤ
  diversification : ℤ
  concentration : ℤ
  sentiment : ℤ
  costHealth : ℤ
deriving DecidableEq, Repr

/-- `_compute_health_score`; `min(weighted_upside, 20)` raises a
`TypeError` when the overview's `weightedUpside` is `None`. -/
def compute_health_score (holdings : List EnrichedHolding) (by_sector : List SectorEntry)
    (concentration : List ConcEntry) (ov : AnalystOverview) : Except PyErr HealthScore :=
  let n_sectors : ℚ := ((by_sector.filter (fun s => s.sector ≠ "Unknown")).length : ℚ)
  let div_score := min (n_sectors / 8 * 25) 25
  let conc_score := max (25 - (concentration.length : ℚ) * 8) 0
  let buy_ratio : ℚ :=
    if 0 < ov.totalCovered then (ov.buys : ℚ) / (ov.totalCovered : ℚ) else 1 / 2
  match ov.weightedUpside with
  | none => .error .typeError
  | some weighted_upside =>
    let sentiment_score := min (buy_ratio * 15 + min weighted_upside 20 / 20 * 10) 25
    let total_val := (holdings.map (fun h => orZero h.currentValue)).sum
    let total_cost :=
      ((holdings.filter (fun h => qTruthy h.costBasis)).map (fun h => orZero h.costBasis)).sum
    let cost_score :=
      if 0 < total_cost then
        min (max (((total_val - total_cost) / total_cost + 0.2) / 0.6 * 25) 0) 25
      else 12.5
    .ok { total := min (pyRound (div_score + conc_score + sentiment_score + cost_score)) 100,
          diversification := pyRound div_score, concentration := pyRound conc_score,
          sentiment := pyRound sentiment_score, costHealth := pyRound cost_score }

/-- One dividend-paying holding. -/
structure DividendHolding where
  symbol : String
  name : String
  currentValue : ℚ
  dividendYield : ℚ
  annualIncome : ℚ
  monthlyIncome : ℚ
deriving DecidableEq, Repr

/-- The dividend income projection. -/
structure Dividends where
  totalAnnual : ℚ
  totalMonthly : ℚ
  weightedYield : ℚ
  holdings : List DividendHolding
  payingCount : ℕ
  totalCount : ℕ
deriving DecidableEq, Repr

/-- The dividend projector block of `analyze_portfolio`. -/
def dividendsOf (holdings : List EnrichedHolding) (total_value : ℚ) : Dividends :=
  let entries := holdings.filterMap (fun h =>
    let dy := orZero h.dividendYield
    let val := orZero h.currentValue
    if qTruthy h.dividendYield ∧ 0 < dy ∧ 0 < val then
      let annual := pyRoundTo 2 (val * dy)
      some { symbol := h.symbol, name := h.name, currentValue := val,
             dividendYield := pyRoundTo 2 (dy * 100), annualIncome := annual,
             monthlyIncome := pyRoundTo 2 (annual / 12) }
    else none)
  let total_annual := (entries.map (fun e => e.annualIncome)).sum
  { totalAnnual := pyRoundTo 2 total_annual,
    totalMonthly := pyRoundTo 2 (total_annual / 12),
    weightedYield := pyRoundTo 2 (if 0 < total_value then total_annual / total_value * 100 else 0),
    holdings := sortedBy (fun a b => b.annualIncome ≤ a.annualIncome) entries,
    payingCount := entries.length,
    totalCount := (holdings.filter (fun h => !h.isFund)).length }

/-- The full analysis result (the static `industryLabels` table and the
sanitized `widgetMeta` projection are not carried; see
`sanitize_for_json` for the latter's sanitization contract). -/
structure AnalysisResult where
  holdings : List EnrichedHolding
  totalValue : ℚ
  totalCost : ℚ
  totalGain : ℚ
  totalGainPct : ℚ
  bySector : List SectorEntry
  byIndustry : List IndustryEntry
  concentration : List ConcEntry
  gaps : List String
  opportunities : List Opportunity
  analystOverview : AnalystOverview
  taxLossCandidates : List TLCandidate
  healthScore : HealthScore
  dividends : Dividends
deriving Repr

/-- `analyze_portfolio` over enriched holdings, with the external
industry-picks gateway passed as a function. -/
def analyze_portfolio (picksFor : String → List Pick) (holdings : List EnrichedHolding) :
    Except PyErr AnalysisResult :=
  let holdings := sortedBy (fun a b => orZero b.currentValue ≤ orZero a.currentValue) holdings
  let total_value := (holdings.map (fun h => orZero h.currentValue)).sum
  let total_cost := (holdings.map (fun h => orZero h.costBasis)).sum
  let total_gain := (holdings.map (fun h => orZero h.totalGainDollar)).sum
  let total_gain_pct :=
    if 0 < total_cost then (total_value - total_cost) / total_cost * 100 else 0
  let by_sector := bySectorOf holdings total_value
  let by_industry := byIndustryOf holdings total_value
  let concentration := concentrationOf holdings total_value
  let gaps := gapIndustriesOf holdings
  let opportunities := opportunitiesOf picksFor gaps
  let analyst_overview := compute_analyst_overview holdings
  let tax_loss := taxLossCandidatesOf holdings
  match compute_health_score holdings by_sector concentration analyst_overview with
  | .error e => .error e
  | .ok health_score =>
    .ok { holdings := holdings, totalValue := total_value, totalCost := total_cost,
          totalGain := total_gain, totalGainPct := pyRoundTo 2 total_gain_pct,
          bySector := by_sector, byIndustry := by_industry, concentration := concentration,
          gaps := gaps, opportunities := opportunities, analystOverview := analyst_overview,
          taxLossCandidates := tax_loss, healthScore := health_score,
          dividends := dividendsOf holdings total_value }

/-! ### Historical performance (`fetch_portfolio_performance`)

`_fetch_ticker_history` wraps the external market-data gateway; it is
passed in as a function `hist : symbol → period → Option HistResult`
(`none` models a failed/empty/timed-out fetch).
-/

/-- A `_fetch_ticker_history` result. -/
structure HistResult where
  symbol : String
  dates : List String
  closes : List ℚ
  currentPrice : ℚ
deriving DecidableEq, Repr

/-- One per-holding return entry. -/
structure HoldingReturn where
  symbol : String
  name : String
  startValue : ℚ
  endValue : ℚ
  returnPct : ℚ
  weight : ℚ
deriving DecidableEq, Repr

/-- The performance result. In the source, `_empty_performance` omits the
two benchmark keys; they are carried here as `[]`/`none` to keep one result
type. -/
structure Performance where
  period : String
  dates : List String
  portfolioValues : List ℚ
  startValue : ℚ
  endValue : ℚ
  periodReturn : ℚ
  periodReturnDollar : ℚ
  bestPerformer : Option HoldingReturn
  worstPerformer : Option HoldingReturn
  holdingReturns : List HoldingReturn
  marketClosed : Bool
  benchmarkValues : List ℚ
  benchmarkReturn : Option ℚ
deriving DecidableEq, Repr

/-- `_VALID_PERIODS`. -/
def validPeriods : List String := ["1d", "1mo", "1y"]

/-- `_empty_performance`. -/
def emptyPerformance (period : String) (market_closed : Bool) : Performance :=
  { period := period, dates := [], portfolioValues := [], startValue := 0, endValue := 0,
    periodReturn := 0, periodReturnDollar := 0, bestPerformer := none,
    worstPerformer := none, holdingReturns := [], marketClosed := market_closed,
    benchmarkValues := [], benchmarkReturn := none }

/-- `_interpolate_value`: price-ratio reconstruction with carry-forward of
the most recent close at or before the date. -/
def interpolateValue (hist : Option HistResult) (date_str : String) (current_value : ℚ) :
    ℚ :=
  match hist with
  | none => current_value
  | some h =>
    if h.currentPrice ≤ 0 then current_value
    else
      match (h.dates.zip h.closes).find? (fun p => p.1 == date_str) with
      | some p => current_value * (p.2 / h.currentPrice)
      | none =>
        match (h.dates.zip h.closes).foldl
            (fun best p => if strLeB p.1 date_str then some p.2 else best) none with
        | some bp => current_value * (bp / h.currentPrice)
        | none => current_value

/-- `sorted(set(l))` for date strings. -/
def sortedUnique (l : List String) : List String := sortedBy strLeB l.dedup

/-- The body of `fetch_portfolio_performance` after the period has been
normalized by its first line. -/
def fetchPerformanceCore (hist : String → String → Option HistResult)
    (holdings : List EnrichedHolding) (period : String) : Performance :=
  let valid := holdings.filter (fun h => 0 < orZero h.currentValue)
  if valid.isEmpty then emptyPerformance period false
  else
    let history_map : List (String × HistResult) :=
      valid.filterMap (fun h => (hist h.symbol period).map (fun r => (h.symbol, r)))
    if history_map.isEmpty then emptyPerformance period (period == "1d")
    else
      let all_dates := sortedUnique (history_map.foldl (fun acc p => acc ++ p.2.dates) [])
      if all_dates.length < 2 then emptyPerformance period (period == "1d")
      else
        let lookup := fun sym => (history_map.find? (fun p => p.1 == sym)).map Prod.snd
        let portfolio_values := all_dates.map (fun d =>
          pyRoundTo 2 ((valid.map (fun h =>
            interpolateValue (lookup h.symbol) d (orZero h.currentValue))).sum))
        let start_value := portfolio_values.headD 0
        let end_value := portfolio_values.getLastD 0
        let period_return :=
          if start_value ≠ 0 then pyRoundTo 2 ((end_value - start_value) / start_value * 100)
          else 0
        let holding_returns := valid.map (fun h =>
          let cv := orZero h.currentValue
          let mk := fun (start_val ret : ℚ) =>
            { symbol := h.symbol, name := h.name, startValue := pyRoundTo 2 start_val,
              endValue := pyRoundTo 2 cv, returnPct := ret,
              weight := orZero h.pctOfAccount : HoldingReturn }
          match lookup h.symbol with
          | some hr =>
            if !hr.dates.isEmpty && !hr.closes.isEmpty then
              let start_price := hr.closes.headD 0
              let end_price := hr.closes.getLastD 0
              let ret :=
                if start_price ≠ 0 ∧ 0 < start_price then
                  pyRoundTo 2 ((end_price - start_price) / start_price * 100)
                else 0
              let start_val := if hr.currentPrice ≠ 0 then cv * (start_price / hr.currentPrice)
                else cv
              mk start_val ret
            else mk cv 0
          | none => mk cv 0)
        let holding_returns := sortedBy (fun a b => b.returnPct ≤ a.returnPct) holding_returns
        let bench : List ℚ × Option ℚ :=
          match hist "SPY" period with
          | some spy =>
            if !spy.dates.isEmpty && !spy.closes.isEmpty then
              let spy_start := spy.closes.headD 0
              if spy_start ≠ 0 ∧ 0 < spy_start then
                let norm := start_value / spy_start
                let pairs := spy.dates.zip spy.closes
                let vals := (all_dates.foldl (fun (acc : ℚ × List ℚ) d =>
                  let last_spy :=
                    match pairs.find? (fun p => p.1 == d) with
                    | some p => p.2
                    | none => acc.1
                  (last_spy, acc.2 ++ [pyRoundTo 2 (last_spy * norm)])) (spy_start, [])).2
                let spy_end := spy.closes.getLastD 0
                (vals, some (pyRoundTo 2 ((spy_end - spy_start) / spy_start * 100)))
              else ([], none)
            else ([], none)
          | none => ([], none)
        { period := period, dates := all_dates, portfolioValues := portfolio_values,
          startValue := start_value, endValue := end_value, periodReturn := period_return,
          periodReturnDollar := pyRoundTo 2 (end_value - start_value),
          bestPerformer := holding_returns.head?,
          worstPerformer := holding_returns.getLast?,
          holdingReturns := holding_returns, marketClosed := false,
          benchmarkValues := bench.1, benchmarkReturn := bench.2 }

/-- `fetch_portfolio_performance`: normalize the period
(`if period not in _VALID_PERIODS: period = "1mo"`), then run the body. -/
def fetch_portfolio_performance (hist : String → String → Option HistResult)
    (holdings : List EnrichedHolding) (period : String) : Performance :=
  fetchPerformanceCore hist holdings (if period ∈ validPeriods then period else "1mo")

/-! ### General lemmas about the stable sort -/

theorem insertSorted_perm (le : α → α → Bool) (a : α) :
    ∀ l : List α, List.Perm (insertSorted le a l) (a :: l)
  | [] => List.Perm.refl _
  | b :: bs => by
    unfold insertSorted
    split
    · exact List.Perm.refl _
    · exact ((insertSorted_perm le a bs).cons b).trans (List.Perm.swap a b bs)

theorem sortedBy_perm (le : α → α → Bool) : ∀ l : List α, List.Perm (sortedBy le l) l
  | [] => List.Perm.refl _
  | a :: as => (insertSorted_perm le a (sortedBy le as)).trans ((sortedBy_perm le as).cons a)

theorem mem_sortedBy {le : α → α → Bool} {l : List α} {x : α} :
    x ∈ sortedBy le l ↔ x ∈ l :=
  (sortedBy_perm le l).mem_iff

theorem pairwise_insertSorted {le : α → α → Bool}
    (htot : ∀ a b, le a b = true ∨ le b a = true)
    (htrans : ∀ a b c, le a b = true → le b c = true → le a c = true) (a : α) :
    ∀ l : List α, l.Pairwise (fun x y => le x y = true) →
      (insertSorted le a l).Pairwise (fun x y => le x y = true)
  | [], _ => List.pairwise_singleton _ a
  | b :: bs, hp => by
    unfold insertSorted
    rcases List.pairwise_cons.mp hp with ⟨hb, hbs⟩
    split
    · rename_i hab
      exact List.pairwise_cons.mpr
        ⟨fun x hx => by
          rcases List.mem_cons.mp hx with hx | hx
          · exact hx ▸ hab
          · exact htrans a b x hab (hb x hx), hp⟩
    · rename_i hab
      have hba : le b a = true := (htot a b).resolve_left hab
      exact List.pairwise_cons.mpr
        ⟨fun x hx => by
          rcases List.mem_cons.mp ((insertSorted_perm le a bs).mem_iff.mp hx) with hx | hx
          · exact hx ▸ hba
          · exact hb x hx,
         pairwise_insertSorted htot htrans a bs hbs⟩

theorem pairwise_sortedBy {le : α → α → Bool}
    (htot : ∀ a b, le a b = true ∨ le b a = true)
    (htrans : ∀ a b c, le a b = true → le b c = true → le a c = true) :
    ∀ l : List α, (sortedBy le l).Pairwise (fun x y => le x y = true)
  | [] => List.Pairwise.nil
  | a :: as => pairwise_insertSorted htot htrans a _ (pairwise_sortedBy htot htrans as)

/-! ### Claim C4 -/

/-- The elements of a `JArr` as a Lean list. -/
def JArr.toList : JArr → List JVal
  | .nil => []
  | .cons x xs => x :: toList xs

/-- The key-value pairs of a `JObj` as a Lean list, in order. -/
def JObj.toList : JObj → List (String × JVal)
  | .nil => []
  | .cons k v kvs => (k, v) :: toList kvs

theorem toList_injective_arr : ∀ {xs ys : JArr}, xs.toList = ys.toList → xs = ys
  | .nil, .nil, _ => rfl
  | .nil, .cons _ _, h => by
    simp only [JArr.toList] at h
    exact List.noConfusion h
  | .cons _ _, .nil, h => by
    simp only [JArr.toList] at h
    exact List.noConfusion h
  | .cons x xs, .cons y ys, h => by
    simp only [JArr.toList, List.cons.injEq] at h
    rw [h.1, toList_injective_arr h.2]

theorem toList_injective_obj : ∀ {xs ys : JObj}, xs.toList = ys.toList → xs = ys
  | .nil, .nil, _ => rfl
  | .nil, .cons _ _ _, h => by
    simp only [JObj.toList] at h
    exact List.noConfusion h
  | .cons _ _ _, .nil, h => by
    simp only [JObj.toList] at h
    exact List.noConfusion h
  | .cons k v kvs, .cons k2 v2 kvs2, h => by
    simp only [JObj.toList, List.cons.injEq, Prod.mk.injEq] at h
    rw [h.1.1, h.1.2, toList_injective_obj h.2]

/-- `sanitizeArr` sanitizes a list element by element, in place: same
length, same order. -/
theorem sanitizeArr_toList :
    ∀ xs : JArr, (sanitizeArr xs).toList = xs.toList.map sanitize_for_json
  | .nil => rfl
  | .cons x xs => by
    simp only [sanitizeArr, JArr.toList, List.map_cons, sanitizeArr_toList xs]

/-- `sanitizeObj` keeps every key, in order, and sanitizes each value in
place. -/
theorem sanitizeObj_toList :
    ∀ kvs : JObj, (sanitizeObj kvs).toList =
      kvs.toList.map (fun kv => (kv.1, sanitize_for_json kv.2))
  | .nil => rfl
  | .cons k v kvs => by
    simp only [sanitizeObj, JObj.toList, List.map_cons, sanitizeObj_toList kvs]

/-- C4: `_sanitize_for_json` replaces every float NaN/Infinity, at any
depth, by null in place and leaves every other value unchanged: every
scalar node maps as stated (NaN and ±Inf to null, all others to
themselves); a list node maps to the list of its recursively sanitized
elements, same length and order; a dict node maps to the same keys, in
order, each value recursively sanitized (the `toList` views are faithful:
they are injective); an already-safe tree is returned unchanged; the
result never contains a non-finite float; and the nested instance
`obj a ↦ [NaN, 3]` maps to `obj a ↦ [null, 3]`. -/
theorem sanitize_for_json_spec (v : JVal) :
    jsonSafe (sanitize_for_json v) = true ∧
    (jsonSafe v = true → sanitize_for_json v = v) ∧
    (sanitize_for_json (.float .nan) = .null ∧
      (∀ b, sanitize_for_json (.float (.inf b)) = .null) ∧
      (∀ q, sanitize_for_json (.float (.finite q)) = .float (.finite q)) ∧
      sanitize_for_json .null = .null ∧
      (∀ b, sanitize_for_json (.bool b) = .bool b) ∧
      (∀ n, sanitize_for_json (.int n) = .int n) ∧
      (∀ s, sanitize_for_json (.str s) = .str s)) ∧
    (∀ xs : JArr, sanitize_for_json (.arr xs) = .arr (sanitizeArr xs) ∧
      (sanitizeArr xs).toList = xs.toList.map sanitize_for_json) ∧
    (∀ kvs : JObj, sanitize_for_json (.obj kvs) = .obj (sanitizeObj kvs) ∧
      (sanitizeObj kvs).toList =
        kvs.toList.map (fun kv => (kv.1, sanitize_for_json kv.2))) ∧
    (∀ xs ys : JArr, xs.toList = ys.toList → xs = ys) ∧
    (∀ xs ys : JObj, xs.toList = ys.toList → xs = ys) ∧
    sanitize_for_json
        (.obj (.cons "a" (.arr (.cons (.float .nan) (.cons (.int 3) .nil))) .nil)) =
      .obj (.cons "a" (.arr (.cons .null (.cons (.int 3) .nil))) .nil) :=
  ⟨jsonSafe_sanitize v, sanitize_of_safe v,
   ⟨rfl, fun _ => rfl, fun _ => rfl, rfl, fun _ => rfl, fun _ => rfl, fun _ => rfl⟩,
   fun xs => ⟨rfl, sanitizeArr_toList xs⟩,
   fun kvs => ⟨rfl, sanitizeObj_toList kvs⟩,
   fun _ _ h => toList_injective_arr h,
   fun _ _ h => toList_injective_obj h,
   rfl⟩

/-- Witness for C4: output safety of the concrete mixed tree, the
safe-tree identity discharged at a concrete NaN-free tree, and the list
faithfulness discharged at a concrete list. -/
theorem sanitize_for_json_spec_witness :
    jsonSafe (sanitize_for_json
      (.obj (.cons "a" (.arr (.cons (.float .nan) (.cons (.int 3) .nil))) .nil))) = true ∧
    sanitize_for_json (.obj (.cons "a" (.float (.finite 1)) .nil)) =
      .obj (.cons "a" (.float (.finite 1)) .nil) ∧
    JArr.cons (.int 3) .nil = JArr.cons (.int 3) .nil :=
  ⟨(sanitize_for_json_spec _).1,
   (sanitize_for_json_spec (.obj (.cons "a" (.float (.finite 1)) .nil))).2.1 rfl,
   (sanitize_for_json_spec .null).2.2.2.2.2.1
     (JArr.cons (.int 3) .nil) (JArr.cons (.int 3) .nil) rfl⟩

/-! ### Claim C10 -/

theorem fetchPerformanceCore_period (hist : String → String → Option HistResult)
    (hs : List EnrichedHolding) (q : String) :
    (fetchPerformanceCore hist hs q).period = q := by
  simp only [fetchPerformanceCore]
  repeat' first
  | rfl
  | split

/-- C10: a period outside `_VALID_PERIODS` is silently replaced by "1mo":
the result equals the "1mo" result and carries `period = "1mo"`. -/
theorem fetch_portfolio_performance_invalid_period
    (hist : String → String → Option HistResult) (hs : List EnrichedHolding)
    (p : String) (hp : p ∉ validPeriods) :
    fetch_portfolio_performance hist hs p = fetch_portfolio_performance hist hs "1mo" ∧
    (fetch_portfolio_performance hist hs p).period = "1mo" := by
  constructor
  · unfold fetch_portfolio_performance
    rw [if_neg hp, if_pos (by simp [validPeriods])]
  · unfold fetch_portfolio_performance
    rw [if_neg hp, fetchPerformanceCore_period]

/-- Witness for C10: the invalid period "5y" with a failing gateway and no
holdings collapses to the "1mo" result. -/
theorem fetch_portfolio_performance_invalid_period_witness :
    fetch_portfolio_performance (fun _ _ => none) [] "5y" =
      fetch_portfolio_performance (fun _ _ => none) [] "1mo" ∧
    (fetch_portfolio_performance (fun _ _ => none) [] "5y").period = "1mo" :=
  fetch_portfolio_performance_invalid_period (fun _ _ => none) [] "5y" (by decide)

/-! ### Claim C9 -/

theorem manualEntryStep_quantity {entry : ManualEntry} {h : Holding}
    (hm : manualEntryStep entry = some h) : h.quantity.isSome ∧ 0 < orZero h.quantity := by
  simp only [manualEntryStep] at hm
  repeat' split at hm
  all_goals
    first
    | exact Option.noConfusion hm
    | (injection hm with hm; subst hm; exact ⟨rfl, lt_of_not_le (by assumption)⟩)

theorem buildManual_pos_aux (raw : List Holding) :
    ∀ acc, (∀ g ∈ acc, g.quantity.isSome ∧ 0 < orZero g.quantity) →
      (∀ g ∈ raw, g.quantity.isSome ∧ 0 < orZero g.quantity) →
      ∀ g ∈ raw.foldl insertMergedManual acc, g.quantity.isSome ∧ 0 < orZero g.quantity := by
  induction raw with
  | nil => intro acc hacc _ g hg; exact hacc g hg
  | cons r rs ih =>
    intro acc hacc hraw g hg
    rw [List.foldl_cons] at hg
    refine ih (insertMergedManual acc r) ?_
      (fun x hx => hraw x (List.mem_cons_of_mem r hx)) g hg
    intro x hx
    have hr := hraw r (List.mem_cons_self r rs)
    unfold insertMergedManual at hx
    split at hx
    · rcases List.mem_map.mp hx with ⟨m, hmacc, hmx⟩
      split at hmx
      · subst hmx
        refine ⟨rfl, ?_⟩
        have h1 := (hacc m hmacc).2
        have h2 := hr.2
        simp only [mergeTwoManual, orZero, Option.getD_some]
        exact add_pos h1 h2
      · exact hmx ▸ hacc m hmacc
    · rcases List.mem_append.mp hx with hx | hx
      · exact hacc x hx
      · rw [List.mem_singleton] at hx
        exact hx ▸ hr

/-- C9: every holding returned by `build_holdings_from_manual` carries a
non-null, strictly positive quantity (entries whose shares are missing,
unparseable, or non-positive are dropped, never fatal). -/
theorem build_holdings_from_manual_quantity_pos (entries : List ManualEntry) (h : Holding)
    (hmem : h ∈ build_holdings_from_manual entries) :
    h.quantity.isSome ∧ 0 < orZero h.quantity := by
  unfold build_holdings_from_manual at hmem
  refine buildManual_pos_aux _ [] (by simp) ?_ h hmem
  intro g hg
  rcases List.mem_filterMap.mp hg with ⟨e, _, he⟩
  exact manualEntryStep_quantity he

/-- Concrete manual entries: one valid, one with zero shares, one with
unparseable shares, one with an invalid symbol. -/
def manualWitnessEntries : List ManualEntry :=
  [{ symbol := " aapl ", shares := .str "5", costPerShare := .num 2 },
   { symbol := "X", shares := .num 0, costPerShare := .null },
   { symbol := "ZZ", shares := .str "abc", costPerShare := .null },
   { symbol := "BAD SYM", shares := .num 3, costPerShare := .null }]

/-- The single holding the concrete manual entries produce. -/
def manualWitnessHolding : Holding :=
  { symbol := "AAPL", name := "", quantity := some 5, lastPrice := none,
    currentValue := some 0, costBasis := some 10, costBasisPerShare := some 2,
    totalGainDollar := none, totalGainPct := none, pctOfAccount := some 0 }

/-- Witness for C9 at the concrete entries (the three invalid entries are
dropped and the surviving holding has quantity 5 > 0). -/
theorem build_holdings_from_manual_quantity_pos_witness :
    manualWitnessHolding.quantity.isSome ∧ 0 < orZero manualWitnessHolding.quantity :=
  build_holdings_from_manual_quantity_pos manualWitnessEntries manualWitnessHolding
    (by
      rw [show build_holdings_from_manual manualWitnessEntries = [manualWitnessHolding] from
        by with_unfolding_all rfl]
      exact List.mem_singleton.mpr rfl)

/-! ### Claim C7 -/

/-- A bare holding carrying the fallback enrichment record, for concrete
instances. -/
def fbHolding (sym : String) (cv cost pct : Option ℚ) : EnrichedHolding :=
  applyFallbackEnrichment
    { symbol := sym, name := "", quantity := none, lastPrice := none, currentValue := cv,
      costBasis := cost, costBasisPerShare := none, totalGainDollar := none,
      totalGainPct := none, pctOfAccount := pct }

/-- The tax-loss candidacy condition in the claim's words: a positive cost
basis with current value below cost by at least 100 dollars and by at
least 5 percent of cost. -/
def SpecTaxLossCand (h : EnrichedHolding) : Prop :=
  ∃ cost, h.costBasis = some cost ∧ 0 < cost ∧
    100 ≤ cost - orZero h.currentValue ∧
    cost * 5 / 100 ≤ cost - orZero h.currentValue

theorem loss_pct_le_iff {val cost : ℚ} (hc : 0 < cost) :
    (val - cost) / cost * 100 ≤ -5 ↔ cost * 5 / 100 ≤ cost - val := by
  rw [div_mul_eq_mul_div, div_le_iff₀ hc]
  constructor <;> intro h <;> linarith

theorem taxLossStep_isSome_iff (h : EnrichedHolding) :
    (taxLossStep h).isSome = true ↔ SpecTaxLossCand h := by
  unfold taxLossStep SpecTaxLossCand
  cases hcb : h.costBasis with
  | none => simp
  | some cost =>
    dsimp only
    constructor
    · intro hs
      split_ifs at hs with h1 h2
      · obtain ⟨hne, hpos, hlt⟩ := h1
        obtain ⟨h100, hpct⟩ := h2
        exact ⟨cost, rfl, hpos, by linarith, (loss_pct_le_iff hpos).mp hpct⟩
      · exact absurd hs (by simp)
      · exact absurd hs (by simp)
    · rintro ⟨cost2, hcb2, hpos, h100, h5⟩
      injection hcb2 with hcb2
      subst hcb2
      rw [if_pos ⟨ne_of_gt hpos, hpos, by linarith⟩,
        if_pos ⟨by linarith, (loss_pct_le_iff hpos).mpr h5⟩]
      rfl

theorem taxLossStep_entry {h : EnrichedHolding} {e : TLCandidate}
    (hm : taxLossStep h = some e) :
    e.estTaxSavings = pyRoundTo 2 (|e.currentValue - e.costBasis| * 0.24) ∧
    100 ≤ e.costBasis - e.currentValue ∧
    e.costBasis * 5 / 100 ≤ e.costBasis - e.currentValue ∧ 0 < e.costBasis := by
  unfold taxLossStep at hm
  split at hm
  · exact Option.noConfusion hm
  · rename_i cost
    dsimp only at hm
    split_ifs at hm with h1 h2
    obtain ⟨hne, hpos, hlt⟩ := h1
    obtain ⟨h100, hpct⟩ := h2
    injection hm with hm
    subst hm
    exact ⟨rfl, by dsimp only; linarith,
      by dsimp only; exact (loss_pct_le_iff hpos).mp hpct, hpos⟩

/-- C7: tax-loss candidates are exactly the holdings with a positive cost
basis whose value is below cost by at least 100 dollars and at least 5
percent; each candidate's `estTaxSavings` is `|loss| × 0.24` rounded to
cents; candidates are sorted ascending by unrealized loss; and at the
claim's concrete inputs `costBasis=1000, currentValue=949` is excluded
while `costBasis=1000, currentValue=850` is included with loss −150 and
savings 36.00. -/
theorem tax_loss_candidates_spec (hs : List EnrichedHolding) :
    (taxLossCandidatesOf hs).Pairwise (fun a b => a.unrealizedLoss ≤ b.unrealizedLoss) ∧
    (∀ h : EnrichedHolding, (taxLossStep h).isSome = true ↔ SpecTaxLossCand h) ∧
    (∀ e ∈ taxLossCandidatesOf hs, ∃ h ∈ hs, taxLossStep h = some e ∧
      e.estTaxSavings = pyRoundTo 2 (|e.currentValue - e.costBasis| * 0.24) ∧
      100 ≤ e.costBasis - e.currentValue ∧
      e.costBasis * 5 / 100 ≤ e.costBasis - e.currentValue ∧ 0 < e.costBasis) ∧
    taxLossCandidatesOf [fbHolding "AAA" (some 949) (some 1000) none] = [] ∧
    (taxLossCandidatesOf [fbHolding "BBB" (some 850) (some 1000) none]).map
      (fun e => (e.unrealizedLoss, e.estTaxSavings)) = [(-150, 36)] := by
  refine ⟨?_, fun h => taxLossStep_isSome_iff h, ?_, by with_unfolding_all rfl,
    by with_unfolding_all rfl⟩
  · refine List.Pairwise.imp (fun hab => of_decide_eq_true hab)
      (pairwise_sortedBy ?_ ?_ _)
    · intro a b
      rcases le_total a.unrealizedLoss b.unrealizedLoss with hab | hab
      · exact Or.inl (decide_eq_true hab)
      · exact Or.inr (decide_eq_true hab)
    · intro a b c hab hbc
      exact decide_eq_true (le_trans (of_decide_eq_true hab) (of_decide_eq_true hbc))
  · intro e he
    rcases List.mem_filterMap.mp (mem_sortedBy.mp he) with ⟨h, hh, hstep⟩
    exact ⟨h, hh, hstep, taxLossStep_entry hstep⟩

/-- Witness for C7: at the concrete included holding, the candidate list is
sorted and the claim's candidacy condition holds. -/
theorem tax_loss_candidates_spec_witness :
    (taxLossCandidatesOf [fbHolding "BBB" (some 850) (some 1000) none]).Pairwise
      (fun a b => a.unrealizedLoss ≤ b.unrealizedLoss) ∧
    SpecTaxLossCand (fbHolding "BBB" (some 850) (some 1000) none) := by
  have h := tax_loss_candidates_spec [fbHolding "BBB" (some 850) (some 1000) none]
  exact ⟨h.1, (h.2.1 (fbHolding "BBB" (some 850) (some 1000) none)).mp
    (by with_unfolding_all rfl)⟩

/-! ### Claim C8 -/

/-- The effective value-weight percentage in the claim's words:
`pctOfAccount` when present, otherwise derived from total value. -/
def specEffectivePct (total_value : ℚ) (h : EnrichedHolding) : Option ℚ :=
  match h.pctOfAccount with
  | some p => some p
  | none =>
    if 0 < total_value then some (orZero h.currentValue / total_value * 100) else none

/-- The concentration threshold: 30 for funds/ETFs, 15 otherwise. -/
def concThreshold (h : EnrichedHolding) : ℚ := if isFundEff h then 30 else 15

/-- The claim's flagging condition: the effective percentage strictly
exceeds the holding's threshold. -/
def SpecConcFlag (total_value : ℚ) (h : EnrichedHolding) : Prop :=
  ∃ p, specEffectivePct total_value h = some p ∧ concThreshold h < p

theorem concThreshold_pos (h : EnrichedHolding) : (0 : ℚ) < concThreshold h := by
  unfold concThreshold
  split <;> norm_num

theorem concStep_eq (total_value : ℚ) (h : EnrichedHolding) :
    concStep total_value h =
      match specEffectivePct total_value h with
      | some p =>
        if p ≠ 0 ∧ concThreshold h < p then
          some { symbol := h.symbol, name := h.name, pct := pyRoundTo 1 p,
                 currentValue := orZero h.currentValue, isFund := isFundEff h,
                 threshold := concThreshold h }
        else none
      | none => none := rfl

theorem concStep_isSome_iff (total_value : ℚ) (h : EnrichedHolding) :
    (concStep total_value h).isSome = true ↔ SpecConcFlag total_value h := by
  rw [concStep_eq]
  unfold SpecConcFlag
  cases hsp : specEffectivePct total_value h with
  | none => simp
  | some p =>
    dsimp only
    constructor
    · intro hs
      split_ifs at hs with h1
      · exact ⟨p, rfl, h1.2⟩
      · exact absurd hs (by simp)
    · rintro ⟨q, hq, hlt⟩
      injection hq with hq
      subst hq
      rw [if_pos ⟨ne_of_gt ((concThreshold_pos h).trans hlt), hlt⟩]
      rfl

theorem concStep_entry {total_value : ℚ} {h : EnrichedHolding} {e : ConcEntry}
    (hm : concStep total_value h = some e) :
    ∃ p, specEffectivePct total_value h = some p ∧ e.pct = pyRoundTo 1 p ∧
      e.threshold < p ∧ e.threshold = concThreshold h ∧ e.symbol = h.symbol := by
  rw [concStep_eq] at hm
  cases hsp : specEffectivePct total_value h with
  | none =>
    rw [hsp] at hm
    exact Option.noConfusion hm
  | some p =>
    rw [hsp] at hm
    dsimp only at hm
    split_ifs at hm with h1
    injection hm with hm
    subst hm
    exact ⟨p, rfl, rfl, h1.2, rfl, rfl⟩

/-- C8: a holding is flagged as a concentration risk exactly when its
value-weight percentage (from `pctOfAccount` when present, otherwise
`currentValue / totalValue`) strictly exceeds its threshold — 30 for
funds/ETFs, 15 otherwise; a non-fund holding at exactly 15.00% is not
flagged while one at 15.01% is. -/
theorem concentration_spec (hs : List EnrichedHolding) (total_value : ℚ) :
    (∀ h : EnrichedHolding,
      (concStep total_value h).isSome = true ↔ SpecConcFlag total_value h) ∧
    (∀ e ∈ concentrationOf hs total_value, ∃ h ∈ hs, concStep total_value h = some e ∧
      ∃ p, specEffectivePct total_value h = some p ∧ e.pct = pyRoundTo 1 p ∧
        e.threshold < p ∧ e.threshold = concThreshold h) ∧
    concentrationOf [fbHolding "AAA" (some 15) none (some 15)] 100 = [] ∧
    (concentrationOf [fbHolding "BBB" (some 15) none (some (1501 / 100))] 100).map
      (fun e => (e.symbol, e.threshold)) = [("BBB", 15)] := by
  refine ⟨fun h => concStep_isSome_iff total_value h, ?_, by with_unfolding_all rfl,
    by with_unfolding_all rfl⟩
  intro e he
  rcases List.mem_filterMap.mp he with ⟨h, hh, hstep⟩
  rcases concStep_entry hstep with ⟨p, hp, hpct, hthr, hthr2, _⟩
  exact ⟨h, hh, hstep, p, hp, hpct, hthr, hthr2⟩

/-- Witness for C8: the 15.01% non-fund holding satisfies the claim's
flagging condition. -/
theorem concentration_spec_witness :
    SpecConcFlag 100 (fbHolding "BBB" (some 15) none (some (1501 / 100))) := by
  have h := concentration_spec [fbHolding "BBB" (some 15) none (some (1501 / 100))] 100
  exact (h.1 (fbHolding "BBB" (some 15) none (some (1501 / 100)))).mp
    (by with_unfolding_all rfl)

/-! ### Claim C6 -/

theorem addSector_not_mem (m : List SectorEntry) (sec : String) (dv : ℚ) (dc : ℕ)
    (h : m.any (fun e => e.sector == sec) = false) :
    addSector m sec dv dc = m ++ [{ sector := sec, value := dv, count := dc, pct := 0 }] := by
  unfold addSector
  rw [if_neg (by simp [h])]

theorem addSector_mem (m : List SectorEntry) (sec : String) (dv : ℚ) (dc : ℕ)
    (h : m.any (fun e => e.sector == sec) = true) :
    addSector m sec dv dc =
      m.map (fun e =>
        if e.sector == sec then { e with value := e.value + dv, count := e.count + dc }
        else e) := by
  unfold addSector
  rw [if_pos h]

theorem foldl_addSector_fresh (val : ℚ) :
    ∀ (ws : List (String × ℚ)) (m : List SectorEntry),
      (∀ p ∈ ws, m.any (fun e => e.sector == p.1) = false) →
      (ws.map Prod.fst).Nodup →
      ws.foldl (fun acc p => addSector acc p.1 (val * p.2) 0) m =
        m ++ ws.map (fun p => { sector := p.1, value := val * p.2, count := 0, pct := 0 })
  | [], m, _, _ => by simp
  | p :: ps, m, hfresh, hnd => by
    rw [List.foldl_cons, addSector_not_mem m p.1 _ _ (hfresh p (List.mem_cons_self p ps))]
    have hnd' : (ps.map Prod.fst).Nodup := (List.nodup_cons.mp (by simpa using hnd)).2
    have hp1 : p.1 ∉ ps.map Prod.fst := (List.nodup_cons.mp (by simpa using hnd)).1
    have hfresh' : ∀ q ∈ ps,
        ((m ++ [({ sector := p.1, value := val * p.2, count := 0, pct := 0 } : SectorEntry)]).any
          fun e => e.sector == q.1) = false := by
      intro q hq
      rw [List.any_append]
      have h1 : m.any (fun e => e.sector == q.1) = false :=
        hfresh q (List.mem_cons_of_mem p hq)
      have h2 : p.1 ≠ q.1 := by
        intro hpq
        exact hp1 (hpq ▸ List.mem_map_of_mem Prod.fst hq)
      simp [h1, h2]
    rw [foldl_addSector_fresh val ps _ hfresh' hnd']
    simp

theorem sum_map_value_mul (val : ℚ) (top : String) :
    ∀ ws : List (String × ℚ),
      ((ws.map (fun p =>
          ({ sector := p.1, value := val * p.2, count := if p.1 = top then 1 else 0,
             pct := 0 } : SectorEntry))).map
        (fun e => e.value)).sum = val * (ws.map Prod.snd).sum
  | [] => by simp
  | p :: ps => by
    simp only [List.map_cons, List.sum_cons, sum_map_value_mul val top ps]
    ring

theorem argmaxFirst_aux_mem : ∀ (rest : List (String × ℚ)) (p : String × ℚ),
    rest.foldl (fun best q => if best.2 < q.2 then q else best) p ∈ p :: rest
  | [], p => List.mem_singleton.mpr rfl
  | q :: qs, p => by
    rw [List.foldl_cons]
    have h := argmaxFirst_aux_mem qs (if p.2 < q.2 then q else p)
    rcases List.mem_cons.mp h with h | h
    · rw [h]
      split
      · exact List.mem_cons_of_mem p (List.mem_cons_self q qs)
      · exact List.mem_cons_self p _
    · exact List.mem_cons_of_mem p (List.mem_cons_of_mem q h)

theorem argmaxFirst_mem {ws : List (String × ℚ)} (h : ws ≠ []) :
    argmaxFirst ws ∈ ws.map Prod.fst := by
  cases ws with
  | nil => exact absurd rfl h
  | cons p rest =>
    unfold argmaxFirst
    exact List.mem_map_of_mem Prod.fst (argmaxFirst_aux_mem rest p)

/-- C6: a fund holding with a (non-empty, duplicate-free) `sectorWeights`
mapping is attributed exactly `currentValue × weight` to each sector
bucket, is counted once — in its first largest-weight sector — and the
bucket values sum back to `currentValue` times the total weight. -/
theorem sector_look_through (h : EnrichedHolding) (ws : List (String × ℚ))
    (hws : h.sectorWeights = some ws) (hne : ws ≠ [])
    (hnd : (ws.map Prod.fst).Nodup) :
    sectorMapOf [h] = ws.map (fun p =>
      { sector := p.1, value := orZero h.currentValue * p.2,
        count := if p.1 = argmaxFirst ws then 1 else 0, pct := 0 }) ∧
    ((sectorMapOf [h]).map (fun e => e.value)).sum =
      orZero h.currentValue * (ws.map Prod.snd).sum := by
  have hmain : sectorMapOf [h] = ws.map (fun p =>
      { sector := p.1, value := orZero h.currentValue * p.2,
        count := if p.1 = argmaxFirst ws then 1 else 0, pct := 0 }) := by
    unfold sectorMapOf
    simp only [List.foldl_cons, List.foldl_nil]
    rw [hws]
    dsimp only
    have hne' : (!ws.isEmpty) = true := by
      cases ws with
      | nil => exact absurd rfl hne
      | cons a l => rfl
    rw [if_pos hne']
    rw [foldl_addSector_fresh (orZero h.currentValue) ws [] (by simp) hnd,
      List.nil_append]
    rcases List.mem_map.mp (argmaxFirst_mem hne) with ⟨q, hq, hq1⟩
    rw [addSector_mem _ _ _ _ ?_]
    · rw [List.map_map]
      refine List.map_congr_left ?_
      intro p hp
      by_cases htop : p.1 = argmaxFirst ws
      · simp [Function.comp, htop]
      · simp [Function.comp, htop]
    · rw [List.any_eq_true]
      refine ⟨_, List.mem_map_of_mem _ hq, ?_⟩
      simp [hq1]
  refine ⟨hmain, ?_⟩
  rw [hmain]
  exact sum_map_value_mul (orZero h.currentValue) (argmaxFirst ws) ws

/-- The claim's concrete fund: value 10000 with weights
`{Technology: 0.6, Healthcare: 0.4}`. -/
def exampleFund : EnrichedHolding :=
  { fbHolding "FND" (some 10000) none none with
    sector := "Fund/ETF", isFund := true,
    sectorWeights := some [("Technology", 6 / 10), ("Healthcare", 4 / 10)] }

/-- Witness for C6: the concrete fund's breakdown attributes 6000 to
Technology (counted there) and 4000 to Healthcare, summing back to
10000. -/
theorem sector_look_through_witness :
    sectorMapOf [exampleFund] =
      [{ sector := "Technology", value := 6000, count := 1, pct := 0 },
       { sector := "Healthcare", value := 4000, count := 0, pct := 0 }] ∧
    ((sectorMapOf [exampleFund]).map (fun e => e.value)).sum = 10000 :=
  ⟨(sector_look_through exampleFund [("Technology", 6 / 10), ("Healthcare", 4 / 10)] rfl
      (by decide) (by decide)).1.trans (by with_unfolding_all rfl),
   (sector_look_through exampleFund [("Technology", 6 / 10), ("Healthcare", 4 / 10)] rfl
      (by decide) (by decide)).2.trans (by with_unfolding_all rfl)⟩

/-! ### Claims C1 and C5 (code bugs) -/

/-- A covered holding whose analyst target is far below its price:
recommendation "hold", 10 analysts, target price 1, current price 100,
value 1000 at 100% of the account. -/
def negUpsideHolding : EnrichedHolding :=
  { fbHolding "AAA" (some 1000) none (some 100) with
    recommendationKey := "hold", nAnalysts := some 10, targetMeanPrice := some 1,
    currentPrice := some 100 }

/-- C5 (code bug): `_compute_health_score` evaluated at a realistic input
(one covered holding with weighted upside −99) yields a sentiment
sub-score of −50 ∉ [0,25] and a total of −20 ∉ [0,100]: the sentiment term
`min(buy_ratio*15 + min(upside,20)/20*10, 25)` has no lower clamp. -/
theorem health_score_out_of_bounds :
    (compute_health_score [negUpsideHolding] (bySectorOf [negUpsideHolding] 1000)
        (concentrationOf [negUpsideHolding] 1000)
        (compute_analyst_overview [negUpsideHolding])).map
      (fun s => (s.total, s.diversification, s.concentration, s.sentiment, s.costHealth)) =
      .ok (-20, 0, 17, -50, 12) := by
  with_unfolding_all rfl

/-- C1 (code bug): on a holding carrying only the documented fallback
enrichment record, the analyst overview's `weightedUpside` is `None`, and
`analyze_portfolio` raises a `TypeError` out of `_compute_health_score`
(`min(None, 20)`) instead of returning a result. -/
theorem analyze_portfolio_raises_on_fallback :
    analyze_portfolio (fun _ => []) [fbHolding "AAPL" (some 2000) none (some 100)] =
      .error .typeError := by
  with_unfolding_all rfl

/-! ### Claim C2 -/

/-- The parser's actual no-throw domain, per the amended claim: the
cleaned file still has a header line, and no data row has more fields than
the header. -/
def csvParseOk (lines : List String) : Bool :=
  match cleanLines lines with
  | [] => false
  | header :: dataRows =>
    !dataRows.any (fun l => (splitRow header).length < (splitRow l).length)

/-- C2 counterexample: an empty file makes `parse_portfolio_csv` raise
(pandas `EmptyDataError`) instead of returning the empty list. -/
theorem parse_portfolio_csv_empty_raises :
    parse_portfolio_csv [] = Except.error PyErr.emptyData := rfl

/-- C2 (amended): `parse_portfolio_csv` returns a (possibly empty) list
exactly when the cleaned input has a header and no over-long data row — in
particular a header-only file yields `[]` and a row with unparseable
values and no quantity is dropped, not fatal — and otherwise it raises. -/
theorem parse_portfolio_csv_total (lines : List String) :
    (parse_portfolio_csv lines).isOk = csvParseOk lines ∧
    parse_portfolio_csv ["Symbol,Current Value"] = Except.ok [] ∧
    (parse_portfolio_csv ["Symbol,Current Value", "XXX,abc", "AAPL,100"]).map
      (fun l => l.map (fun h => (h.symbol, h.currentValue))) =
      Except.ok [("AAPL", some 100)] := by
  refine ⟨?_, by with_unfolding_all rfl, by with_unfolding_all rfl⟩
  unfold parse_portfolio_csv csvParseOk read_csv
  cases cleanLines lines with
  | nil => rfl
  | cons header dataRows =>
    dsimp only
    cases hany : dataRows.any (fun l => decide ((splitRow header).length < (splitRow l).length))
    · rfl
    · rfl

/-! ### Claim C3 -/

theorem pyRound_sub_le (q : ℚ) : |(pyRound q : ℚ) - q| ≤ 1 / 2 := by
  unfold pyRound
  dsimp only
  have h0 : (0 : ℚ) ≤ q - ⌊q⌋ := by
    have := Int.floor_le q
    linarith
  have h1 : q - ⌊q⌋ < 1 := by
    have := Int.lt_floor_add_one q
    linarith
  split_ifs with hlt hgt hev
  · rw [abs_sub_comm, abs_of_nonneg h0]
    linarith
  · push_cast
    rw [abs_of_nonneg (by linarith)]
    linarith
  · rw [abs_sub_comm, abs_of_nonneg h0]
    linarith
  · push_cast
    rw [abs_of_nonneg (by linarith)]
    linarith

theorem pyRoundTo_sub_le (d : ℕ) (q : ℚ) : |pyRoundTo d q - q| ≤ 1 / (2 * 10 ^ d) := by
  unfold pyRoundTo
  have h10 : (0 : ℚ) < 10 ^ d := by positivity
  have key := pyRound_sub_le (q * 10 ^ d)
  calc |(pyRound (q * 10 ^ d) : ℚ) / 10 ^ d - q|
      = |(pyRound (q * 10 ^ d) : ℚ) - q * 10 ^ d| / 10 ^ d := by
        rw [show (pyRound (q * 10 ^ d) : ℚ) / 10 ^ d - q =
          ((pyRound (q * 10 ^ d) : ℚ) - q * 10 ^ d) / 10 ^ d from by field_simp; ring,
          abs_div, abs_of_pos h10]
    _ ≤ (1 / 2) / 10 ^ d := by
        exact (div_le_div_iff_of_pos_right h10).mpr key
    _ = 1 / (2 * 10 ^ d) := by ring

theorem sum_round2_close : ∀ xs : List ℚ,
    |(xs.map (pyRoundTo 2)).sum - xs.sum| ≤ (xs.length : ℚ) * (1 / 200)
  | [] => by simp
  | x :: xs => by
    simp only [List.map_cons, List.sum_cons, List.length_cons]
    have h1 : |pyRoundTo 2 x - x| ≤ 1 / 200 := by
      have := pyRoundTo_sub_le 2 x
      norm_num at this
      linarith
    have h2 := sum_round2_close xs
    calc |pyRoundTo 2 x + (xs.map (pyRoundTo 2)).sum - (x + xs.sum)|
        = |(pyRoundTo 2 x - x) + ((xs.map (pyRoundTo 2)).sum - xs.sum)| := by ring_nf
      _ ≤ |pyRoundTo 2 x - x| + |(xs.map (pyRoundTo 2)).sum - xs.sum| := abs_add _ _
      _ ≤ 1 / 200 + (xs.length : ℚ) * (1 / 200) := add_le_add h1 h2
      _ = ((xs.length : ℚ) + 1) * (1 / 200) := by ring
      _ = ((xs.length + 1 : ℕ) : ℚ) * (1 / 200) := by push_cast; ring

theorem sum_div_total (vals : List ℚ) (ht : vals.sum ≠ 0) :
    (vals.map (fun v => v / vals.sum * 100)).sum = 100 := by
  have hfun : (fun v : ℚ => v / vals.sum * 100) = fun v : ℚ => v * (100 / vals.sum) := by
    funext v
    field_simp
  rw [hfun]
  rw [show (vals.map fun v => v * (100 / vals.sum)) = vals.map fun v => id v * (100 / vals.sum)
    from rfl]
  rw [List.sum_map_mul_right, List.map_id]
  field_simp

theorem holdingOfRow_currentValue {hd : List String} {row : List (Option String)}
    {h : Holding} (hm : holdingOfRow hd row = some h) : h.currentValue.isSome := by
  simp only [holdingOfRow] at hm
  repeat' split at hm
  all_goals first
  | exact Option.noConfusion hm
  | (injection hm with hm; subst hm; rfl)

theorem consolidate_step_nodup (acc : List Holding) (r : Holding)
    (h1 : (acc.map (fun h => h.symbol)).Nodup) :
    ((insertMerged acc r).map (fun h => h.symbol)).Nodup := by
  unfold insertMerged
  split
  · rw [List.map_map]
    have heq : ((fun h : Holding => h.symbol) ∘
        fun m => if m.symbol == r.symbol then mergeTwo m r else m) =
        fun m : Holding => m.symbol := by
      funext m
      simp only [Function.comp]
      cases hs : m.symbol == r.symbol
      · rw [if_neg (by simp [hs])]
      · rw [if_pos (by simp [hs])]
        rfl
    rw [heq]
    exact h1
  · rename_i hany
    rw [List.map_append]
    refine List.Nodup.append h1 (List.nodup_singleton _) ?_
    intro a ha hb
    rw [List.map_cons, List.map_nil, List.mem_singleton] at hb
    subst hb
    rcases List.mem_map.mp ha with ⟨m, hmacc, hsym⟩
    exact hany (List.any_eq_true.mpr ⟨m, hmacc, by simp [hsym]⟩)

theorem consolidate_step_isSome (acc : List Holding) (r : Holding)
    (h2 : ∀ g ∈ acc, g.currentValue.isSome) (hr : r.currentValue.isSome) :
    ∀ g ∈ insertMerged acc r, g.currentValue.isSome := by
  intro g hg
  unfold insertMerged at hg
  split at hg
  · rcases List.mem_map.mp hg with ⟨m, hmacc, hmx⟩
    split at hmx
    · subst hmx
      rfl
    · exact hmx ▸ h2 m hmacc
  · rcases List.mem_append.mp hg with hg | hg
    · exact h2 g hg
    · rw [List.mem_singleton] at hg
      exact hg ▸ hr

theorem consolidate_invariants : ∀ (rows acc : List Holding),
    (∀ g ∈ rows, g.currentValue.isSome) →
    (acc.map (fun h => h.symbol)).Nodup → (∀ g ∈ acc, g.currentValue.isSome) →
    ((rows.foldl insertMerged acc).map (fun h => h.symbol)).Nodup ∧
      ∀ g ∈ rows.foldl insertMerged acc, g.currentValue.isSome
  | [], acc, _, h1, h2 => ⟨h1, h2⟩
  | r :: rs, acc, hrows, h1, h2 => by
    rw [List.foldl_cons]
    exact consolidate_invariants rs (insertMerged acc r)
      (fun g hg => hrows g (List.mem_cons_of_mem r hg))
      (consolidate_step_nodup acc r h1)
      (consolidate_step_isSome acc r h2 (hrows r (List.mem_cons_self r rs)))

theorem recompute_symbols (hs : List Holding) :
    (recompute hs).map (fun h => h.symbol) = hs.map (fun h => h.symbol) := by
  unfold recompute
  dsimp only
  rw [List.map_map]
  exact List.map_congr_left fun h _ => rfl

theorem recompute_mem {hs : List Holding} {g : Holding} (hg : g ∈ recompute hs) :
    ∃ h ∈ hs, g.currentValue = h.currentValue ∧ g.pctOfAccount.isSome := by
  unfold recompute at hg
  dsimp only at hg
  rcases List.mem_map.mp hg with ⟨h, hm, heq⟩
  subst heq
  exact ⟨h, hm, rfl, rfl⟩

theorem totalValueOf_recompute (hs : List Holding) :
    totalValueOf (recompute hs) = totalValueOf hs := by
  unfold totalValueOf recompute
  dsimp only
  rw [List.map_map]
  exact congrArg List.sum (List.map_congr_left fun h _ => rfl)

theorem recompute_pcts (hs : List Holding) (ht : 0 < totalValueOf hs) :
    (recompute hs).map (fun h => orZero h.pctOfAccount) =
      (hs.map (fun h => orZero h.currentValue / totalValueOf hs * 100)).map (pyRoundTo 2) := by
  unfold recompute
  dsimp only
  rw [List.map_map, List.map_map]
  refine List.map_congr_left fun h _ => ?_
  simp only [Function.comp, orZero, Option.getD_some]
  rw [if_pos ht]

/-- C3 counterexample: a parenthesized (negative) market value survives
into the output, so `currentValue` is not always ≥ 0. -/
theorem parse_portfolio_csv_negative_value :
    (parse_portfolio_csv ["Symbol,Current Value", "MSFT,($100.00)"]).map
      (fun l => l.map (fun h => h.currentValue)) = Except.ok [some (-100)] ∧
    (-100 : ℚ) < 0 := by
  exact ⟨by with_unfolding_all rfl, by norm_num⟩

/-- C3 (amended): every successful parse yields holdings with pairwise
distinct symbols and a non-null `currentValue` (which may be negative when
the CSV reports one) and non-null `pctOfAccount`; and when the total value
is positive the `pctOfAccount` values sum to 100 up to the rounding
tolerance `n × 0.005`. -/
theorem parse_portfolio_csv_invariants (lines : List String) (l : List Holding)
    (hok : parse_portfolio_csv lines = Except.ok l) :
    (l.map (fun h => h.symbol)).Nodup ∧
    (∀ h ∈ l, h.currentValue.isSome ∧ h.pctOfAccount.isSome) ∧
    (0 < totalValueOf l →
      |(l.map (fun h => orZero h.pctOfAccount)).sum - 100| ≤ (l.length : ℚ) * (1 / 200)) := by
  unfold parse_portfolio_csv at hok
  cases hr : read_csv (cleanLines lines) with
  | error e =>
    rw [hr] at hok
    exact Except.noConfusion hok
  | ok frame =>
    rw [hr] at hok
    dsimp only at hok
    injection hok with hok
    subst hok
    set rows := frame.rows.filterMap (holdingOfRow (renamedHeaders frame)) with hrows_def
    have hrows : ∀ g ∈ rows, g.currentValue.isSome := by
      intro g hg
      rcases List.mem_filterMap.mp hg with ⟨row, _, hrow⟩
      exact holdingOfRow_currentValue hrow
    have hcons := consolidate_invariants rows [] hrows (by simp) (by simp)
    refine ⟨?_, ?_, ?_⟩
    · rw [recompute_symbols]
      exact hcons.1
    · intro h hm
      rcases recompute_mem hm with ⟨h0, hm0, hcv, hpct⟩
      exact ⟨hcv ▸ hcons.2 h0 hm0, hpct⟩
    · intro hpos
      rw [totalValueOf_recompute] at hpos
      rw [recompute_pcts _ hpos]
      set ms := consolidate rows with hms_def
      set xs := ms.map (fun h => orZero h.currentValue / totalValueOf ms * 100) with hxs_def
      have hsum : xs.sum = 100 := by
        rw [hxs_def]
        unfold totalValueOf
        have hTne : (ms.map (fun h => orZero h.currentValue)).sum ≠ 0 := by
          have h' := ne_of_gt hpos
          unfold totalValueOf at h'
          exact h'
        have hvals := sum_div_total (ms.map (fun h => orZero h.currentValue)) hTne
        rw [List.map_map] at hvals
        simpa [Function.comp] using hvals
      have hbound := sum_round2_close xs
      rw [hsum] at hbound
      have hlen : (xs.length : ℚ) = ((recompute ms).length : ℚ) := by
        rw [hxs_def, List.length_map]
        unfold recompute
        dsimp only
        rw [List.length_map]
      rw [← hlen]
      exact hbound

/-- A concrete two-row CSV for the C3 witness. -/
def csvWitnessLines : List String := ["Symbol,Current Value", "AAPL,50", "MSFT,150"]

/-- The holdings the concrete CSV parses to. -/
def csvWitnessHoldings : List Holding :=
  [{ symbol := "AAPL", name := "", quantity := none, lastPrice := none,
     currentValue := some 50, costBasis := none, costBasisPerShare := none,
     totalGainDollar := none, totalGainPct := none, pctOfAccount := some 25 },
   { symbol := "MSFT", name := "", quantity := none, lastPrice := none,
     currentValue := some 150, costBasis := none, costBasisPerShare := none,
     totalGainDollar := none, totalGainPct := none, pctOfAccount := some 75 }]

/-- Witness for C3 at the concrete CSV (total value 200 > 0; the
percentages 25 and 75 sum to exactly 100). -/
theorem parse_portfolio_csv_invariants_witness :
    ((csvWitnessHoldings.map (fun h => h.symbol)).Nodup ∧
      ∀ h ∈ csvWitnessHoldings, h.currentValue.isSome ∧ h.pctOfAccount.isSome) ∧
    |(csvWitnessHoldings.map (fun h => orZero h.pctOfAccount)).sum - 100| ≤
      (csvWitnessHoldings.length : ℚ) * (1 / 200) := by
  have h := parse_portfolio_csv_invariants csvWitnessLines csvWitnessHoldings
    (by with_unfolding_all rfl)
  refine ⟨⟨h.1, h.2.1⟩, h.2.2 ?_⟩
  show (0 : ℚ) < totalValueOf csvWitnessHoldings
  rw [show totalValueOf csvWitnessHoldings = 200 from by with_unfolding_all rfl]
  norm_num

end PortfolioOptimizer
